import Mathlib

/-!
# Verification of the QuAM reference-resolution and component-tree core

The repository ships only documentation, changelog and notebooks; the
Python implementation (`quam/core`) is not present.  The definitions
below are therefore modelled from the specification of the core
(reference grammar and resolver, component-node attribute protocol,
tree walker / instantiator, root registry and persistence), with the
changelog entries in the repository treated as authoritative where they
describe current behaviour (`__class__` always serialised since 0.4.0,
multiple-root warning removed in 0.3.10, config entry
`raise_error_missing_reference` added in 0.4.0).
-/

namespace QuamModel

/-- Modelled from the spec: a value held in the component tree.  A
component node (`comp`) carries its concrete class name and an ordered
association list of attributes; `vdict`/`vlist` are the tree-aware
container proxies (`QuamDict`/`QuamList`); strings beginning with the
reference sentinel are symbolic references stored verbatim. -/
inductive QVal : Type where
  | vint (n : Int)
  | vbool (b : Bool)
  | vstr (s : String)
  | vnone
  | comp (cls : String) (attrs : List (String × QVal))
  | vdict (es : List (String × QVal))
  | vlist (xs : List QVal)

/-- Modelled from the spec: the plain nested-data representation
(JSON-like object/array/primitive model) produced by the tree walker. -/
inductive PVal : Type where
  | pint (n : Int)
  | pbool (b : Bool)
  | pstr (s : String)
  | pnull
  | pobj (es : List (String × PVal))
  | parr (xs : List PVal)

/-- Modelled from the spec: the declared semantic type of an attribute
(primitive, nested node by class name, container thereof, or untyped). -/
inductive FType : Type where
  | tint
  | tbool
  | tstr
  | tcomp (cls : String)
  | tdict (elem : FType)
  | tlist (elem : FType)
  | tany

/-- Modelled from the spec: one entry of the explicit schema descriptor
attached to each node type - name, declared type, transient flag
(`skip_save` metadata) and default value. -/
structure FieldDecl : Type where
  fname : String
  ftype : FType
  fskipSave : Bool
  fdefault : QVal

/-- Modelled from the spec: the schema registry, mapping each class
name to its ordered declared fields. -/
def Schema : Type := List (String × List FieldDecl)

/-! ## Reference grammar -/

/-- Modelled from the spec: the parsed form of a reference string.
`abs segs` is an absolute reference (anchored at the root), `rel k
segs` is anchored `k` parent links above the owning node (`k = 0` is a
plain relative reference). -/
inductive RefForm : Type where
  | abs (segs : List String)
  | rel (up : Nat) (segs : List String)

/-- Split a character list on the path separator `/`. -/
def splitSlash (acc : List Char) (cs : List Char) : List String :=
  match cs with
  | [] => [String.mk acc.reverse]
  | c :: rest =>
    if c == '/' then String.mk acc.reverse :: splitSlash [] rest
    else splitSlash (c :: acc) rest

/-- A reference string split on `/` into its raw pieces. -/
def splitRef (s : String) : List String := splitSlash [] s.data

/-- Modelled from the spec: whether a stored string is a symbolic
reference, distinguished by one of the three reserved sentinels
`"#/"`, `"#./"`, `"#../"`. -/
def isReference (s : String) : Bool :=
  match splitRef s with
  | h :: _ :: _ => h == "#" || h == "#." || h == "#.."
  | _ => false

/-- Count the leading parent-hop (`".."`) segments of a split path. -/
def countUps : List String → Nat × List String
  | ".." :: rest =>
    let (k, segs) := countUps rest
    (k + 1, segs)
  | segs => (0, segs)

/-- Modelled from the spec: every path segment must be non-empty. -/
def validSegs (segs : List String) : Bool :=
  !segs.isEmpty && segs.all (fun seg => !(seg == ""))

/-- Modelled from the spec: parse a reference string - strip the
prefix to classify the anchor kind (absolute / relative /
n-level-parent-relative), split the remainder on `/` into ordered path
segments; empty segments are invalid. -/
def parseRef (s : String) : Option RefForm :=
  match splitRef s with
  | "#" :: segs => if validSegs segs then some (RefForm.abs segs) else none
  | "#." :: segs => if validSegs segs then some (RefForm.rel 0 segs) else none
  | "#.." :: rest =>
    let (k, segs) := countUps rest
    if validSegs segs then some (RefForm.rel (k + 1) segs) else none
  | _ => none

/-! ## Tree navigation -/

/-- First-occurrence lookup in an association list of attributes. -/
def lookupQ (es : List (String × QVal)) (name : String) : Option QVal :=
  match es with
  | [] => none
  | (n, v) :: rest => if n == name then some v else lookupQ rest name

/-- Read a path segment as a decimal container index. -/
def natSegGo (acc : Nat) (cs : List Char) : Option Nat :=
  match cs with
  | [] => some acc
  | c :: rest =>
    if c.isDigit then natSegGo (acc * 10 + (c.toNat - 48)) rest
    else none

/-- A non-empty all-digit segment denotes a list index. -/
def natSeg (s : String) : Option Nat :=
  match s.data with
  | [] => none
  | cs => natSegGo 0 cs

/-- Modelled from the spec: one step of the reference walk - on a
node, look up a declared attribute by name; on a container, look up a
key or index (a numeric segment indexes a list). -/
def childOf (v : QVal) (seg : String) : Option QVal :=
  match v with
  | QVal.comp _ attrs => lookupQ attrs seg
  | QVal.vdict es => lookupQ es seg
  | QVal.vlist xs =>
    match natSeg seg with
    | some i => xs.get? i
    | none => none
  | _ => none

/-- The raw value stored at a path below a top-level object. -/
def valueAt (top : QVal) (pos : List String) : Option QVal :=
  match pos with
  | [] => some top
  | seg :: rest =>
    match childOf top seg with
    | some v => valueAt v rest
    | none => none

/-- Overwrite the first binding of a key in an association list. -/
def setEntry (es : List (String × QVal)) (name : String) (w : QVal) :
    List (String × QVal) :=
  match es with
  | [] => []
  | (n, v) :: rest =>
    if n == name then (n, w) :: rest else (n, v) :: setEntry rest name w

/-- Replace the raw value stored at a path (used to model an upstream
edit between two reads). -/
def setAt (top : QVal) (pos : List String) (w : QVal) : Option QVal :=
  match pos with
  | [] => some w
  | seg :: rest =>
    match top with
    | QVal.comp cls attrs =>
      match lookupQ attrs seg with
      | some v =>
        match setAt v rest w with
        | some v2 => some (QVal.comp cls (setEntry attrs seg v2))
        | none => none
      | none => none
    | QVal.vdict es =>
      match lookupQ es seg with
      | some v =>
        match setAt v rest w with
        | some v2 => some (QVal.vdict (setEntry es seg v2))
        | none => none
      | none => none
    | QVal.vlist xs =>
      match natSeg seg with
      | some i =>
        match xs.get? i with
        | some v =>
          match setAt v rest w with
          | some v2 => some (QVal.vlist (xs.set i v2))
          | none => none
        | none => none
      | none => none
    | _ => none

/-! ## Reference resolver -/

/-- Modelled from the spec: the failure modes of reference resolution.
`circularReference` is the distinct circular-reference failure raised
when the configurable maximum hop count is exhausted; `notAttached` is
raised when an absolute reference is resolved on a node that is not
attached under a `RootNode`; `parentChainTooShort` when a
parent-relative reference walks past the top of the tree;
`missingSegment`/`missingAttr` are dangling-path failures. -/
inductive RErr : Type where
  | invalidRef
  | notAttached
  | parentChainTooShort
  | missingSegment
  | missingAttr
  | circularReference

/-- The live tree a resolution runs against: the top-level object
containing the owning node, and whether that top is a `RootNode`
(a detached component has `topIsRoot = false`). -/
structure TreeCtx : Type where
  top : QVal
  topIsRoot : Bool

/-- Modelled from the spec: walk up `k` parent links from the position
`pos`; `none` when the parent chain is shorter than `k`.  In the
positional model the parent of the object at `pos` is the object at
`pos.dropLast` (a container key counts as one path segment). -/
def walkUp (k : Nat) (pos : List String) : Option (List String) :=
  match k, pos with
  | 0, pos => some pos
  | Nat.succ _, [] => none
  | Nat.succ k, pos => walkUp k pos.dropLast

/-- Modelled from the spec: anchor selection.  Absolute references are
resolved from the `RootNode` reached by walking up the live tree
(an error if the node is not attached under a root); relative
references from the owning node itself; parent-relative references
with depth `k` from the node reached by walking up `k` parent links
(an error if the chain is shorter than `k`). -/
def anchorOf (ctx : TreeCtx) (pos : List String) (f : RefForm) :
    Except RErr (List String) :=
  match f with
  | RefForm.abs _ =>
    if ctx.topIsRoot then Except.ok [] else Except.error RErr.notAttached
  | RefForm.rel k _ =>
    match walkUp k pos with
    | some apos => Except.ok apos
    | none => Except.error RErr.parentChainTooShort

/-- The path segments of a parsed reference. -/
def segsOf (f : RefForm) : List String :=
  match f with
  | RefForm.abs segs => segs
  | RefForm.rel _ segs => segs

/-- Modelled from the spec: the reference walk.  `pos` is the address
of the current (non-reference) object, `segs` the remaining path
segments; each segment is looked up on the current object, and a
segment whose stored raw value is itself a reference is resolved
afresh anchored at its owning object.  The fuel argument is the
configurable maximum hop count; exhausting it raises the distinct
circular-reference failure instead of recursing forever. -/
def resolveGo (fuel : Nat) (ctx : TreeCtx) (pos : List String)
    (segs : List String) : Except RErr (List String) :=
  match fuel with
  | 0 => Except.error RErr.circularReference
  | Nat.succ fuel =>
    match segs with
    | [] => Except.ok pos
    | seg :: rest =>
      match valueAt ctx.top pos with
      | none => Except.error RErr.missingSegment
      | some owner =>
        match childOf owner seg with
        | none => Except.error RErr.missingSegment
        | some (QVal.vstr s) =>
          if isReference s then
            match parseRef s with
            | none => Except.error RErr.invalidRef
            | some f =>
              match anchorOf ctx pos f with
              | Except.error e => Except.error e
              | Except.ok apos =>
                match resolveGo fuel ctx apos (segsOf f) with
                | Except.error e => Except.error e
                | Except.ok addr => resolveGo fuel ctx addr rest
          else resolveGo fuel ctx (pos ++ [seg]) rest
        | some _ => resolveGo fuel ctx (pos ++ [seg]) rest

/-- Modelled from the spec: resolve a reference string owned by the
node at `pos`, returning the address of the referenced slot. -/
def resolveRefAddr (fuel : Nat) (ctx : TreeCtx) (pos : List String)
    (s : String) : Except RErr (List String) :=
  match parseRef s with
  | none => Except.error RErr.invalidRef
  | some f =>
    match anchorOf ctx pos f with
    | Except.error e => Except.error e
    | Except.ok apos => resolveGo fuel ctx apos (segsOf f)

/-- Modelled from the spec: the attribute-read protocol.  If the
stored raw value is a reference string, delegate to the resolver
anchored at the owning node and return the live current value of the
referenced target; otherwise return the raw value unchanged.  No
resolved value is ever cached: every read re-runs the resolver against
the current tree. -/
def getAttrFuel (fuel : Nat) (ctx : TreeCtx) (pos : List String)
    (name : String) : Except RErr QVal :=
  match valueAt ctx.top pos with
  | none => Except.error RErr.missingSegment
  | some owner =>
    match childOf owner name with
    | none => Except.error RErr.missingAttr
    | some (QVal.vstr s) =>
      if isReference s then
        match resolveRefAddr fuel ctx pos s with
        | Except.error e => Except.error e
        | Except.ok addr =>
          match valueAt ctx.top addr with
          | some v => Except.ok v
          | none => Except.error RErr.missingSegment
      else Except.ok (QVal.vstr s)
    | some v => Except.ok v

/-- Modelled from the spec and the 0.4.0 changelog entry: the
process-wide configuration switch `raise_error_missing_reference`
deciding between strict and permissive handling of a dangling
reference. -/
structure QuamConfig : Type where
  raiseErrorMissingReference : Bool

/-- The observable outcome of a configured attribute read: a value,
the distinguished missing sentinel of permissive mode, or an error. -/
inductive GetResult : Type where
  | val (v : QVal)
  | missingSentinel
  | err (e : RErr)

/-- Modelled from the spec: a reference that fails to resolve (missing
path segment) either raises an error or returns a missing sentinel
depending on the process-wide strict/permissive switch; all other
failures raise. -/
def getAttrCfg (cfg : QuamConfig) (fuel : Nat) (ctx : TreeCtx)
    (pos : List String) (name : String) : GetResult :=
  match getAttrFuel fuel ctx pos name with
  | Except.ok v => GetResult.val v
  | Except.error RErr.missingSegment =>
    if cfg.raiseErrorMissingReference then GetResult.err RErr.missingSegment
    else GetResult.missingSentinel
  | Except.error e => GetResult.err e

/-! ## Tree walker: flatten (`to_dict`) -/

/-- Look up a class in the schema registry. -/
def lookupSch (sch : Schema) (cls : String) : Option (List FieldDecl) :=
  match sch with
  | [] => none
  | (c, fds) :: rest => if c == cls then some fds else lookupSch rest cls

/-- The names of the fields of a class marked `skip_save`. -/
def skipNames (sch : Schema) (cls : String) : List String :=
  match lookupSch sch cls with
  | some fds => (fds.filter (fun fd => fd.fskipSave)).map (fun fd => fd.fname)
  | none => []

mutual

/-- Modelled from the spec and the 0.4.0 changelog entry: flatten a
tree into plain nested data.  Primitives are copied as-is; reference
strings are copied verbatim (never resolved at save time); a nested
node recurses and embeds a `__class__` type tag - since 0.4.0 the tag
is always embedded, even when the runtime class matches the declared
type; containers flatten each element with the same rules, preserving
key order.  Fields marked `skip_save` are skipped entirely, including
their whole nested subtree. -/
def toDict (sch : Schema) (v : QVal) : PVal :=
  match v with
  | QVal.vint n => PVal.pint n
  | QVal.vbool b => PVal.pbool b
  | QVal.vstr s => PVal.pstr s
  | QVal.vnone => PVal.pnull
  | QVal.comp cls attrs =>
    PVal.pobj (("__class__", PVal.pstr cls) ::
      toDictFields sch (skipNames sch cls) attrs)
  | QVal.vdict es => PVal.pobj (toDictFields sch [] es)
  | QVal.vlist xs => PVal.parr (toDictList sch xs)
termination_by structural v

/-- Flatten the attribute entries of a node or dict, dropping the
fields named in `skips`. -/
def toDictFields (sch : Schema) (skips : List String)
    (es : List (String × QVal)) : List (String × PVal) :=
  match es with
  | [] => []
  | (n, v) :: rest =>
    if skips.contains n then toDictFields sch skips rest
    else (n, toDict sch v) :: toDictFields sch skips rest
termination_by structural es

/-- Flatten the elements of a list container. -/
def toDictList (sch : Schema) (xs : List QVal) : List PVal :=
  match xs with
  | [] => []
  | v :: rest => toDict sch v :: toDictList sch rest
termination_by structural xs

end

/-! ## Tree walker: instantiate -/

/-- Modelled from the spec: the failure modes of deserialization. -/
inductive IErr : Type where
  | typeMismatch
  | unknownKey
  | unknownClass
  | badTag

/-- First-occurrence lookup in a plain-data object. -/
def lookupEntry (es : List (String × PVal)) (name : String) : Option PVal :=
  match es with
  | [] => none
  | (n, v) :: rest => if n == name then some v else lookupEntry rest name

/-- Find the declared field of a class with a given name. -/
def findFd (fds : List FieldDecl) (name : String) : Option FieldDecl :=
  match fds with
  | [] => none
  | fd :: rest => if fd.fname == name then some fd else findFd rest name

/-- Modelled from the spec: after matching the document's keys against
the declared attributes, the node is constructed with its fields in
declaration order; a declared field absent from the document takes its
declared default. -/
def reorderFields (fds : List FieldDecl) (built : List (String × QVal)) :
    List (String × QVal) :=
  fds.map (fun fd =>
    (fd.fname, (lookupQ built fd.fname).getD fd.fdefault))

mutual

/-- Modelled from the spec: reconstruct a live tree from plain data.
If an object carries an explicit `__class__` type tag, that concrete
class is used (an unresolvable tag falls back to the statically
expected type; with no fallback available it is an error); otherwise
the expected type decides.  Each key of an object is matched against
the resolved class's declared attributes, recursing with the declared
nested type as the new expected type; unknown keys are an error.
Reference strings pass every type check and are kept verbatim. -/
def instantiate (sch : Schema) (pd : PVal) (t : FType) : Except IErr QVal :=
  match pd with
  | PVal.pint n =>
    match t with
    | FType.tint => Except.ok (QVal.vint n)
    | FType.tany => Except.ok (QVal.vint n)
    | _ => Except.error IErr.typeMismatch
  | PVal.pbool b =>
    match t with
    | FType.tbool => Except.ok (QVal.vbool b)
    | FType.tany => Except.ok (QVal.vbool b)
    | _ => Except.error IErr.typeMismatch
  | PVal.pstr s =>
    if isReference s then Except.ok (QVal.vstr s)
    else
      match t with
      | FType.tstr => Except.ok (QVal.vstr s)
      | FType.tany => Except.ok (QVal.vstr s)
      | _ => Except.error IErr.typeMismatch
  | PVal.pnull => Except.ok QVal.vnone
  | PVal.parr xs =>
    match t with
    | FType.tlist te =>
      match instList sch xs te with
      | Except.ok ys => Except.ok (QVal.vlist ys)
      | Except.error e => Except.error e
    | FType.tany =>
      match instList sch xs FType.tany with
      | Except.ok ys => Except.ok (QVal.vlist ys)
      | Except.error e => Except.error e
    | _ => Except.error IErr.typeMismatch
  | PVal.pobj es =>
    match lookupEntry es "__class__" with
    | some (PVal.pstr cls) =>
      match lookupSch sch cls with
      | some fds =>
        match instFields sch fds es with
        | Except.ok built => Except.ok (QVal.comp cls (reorderFields fds built))
        | Except.error e => Except.error e
      | none =>
        match t with
        | FType.tcomp cls2 =>
          match lookupSch sch cls2 with
          | some fds =>
            match instFields sch fds es with
            | Except.ok built =>
              Except.ok (QVal.comp cls2 (reorderFields fds built))
            | Except.error e => Except.error e
          | none => Except.error IErr.unknownClass
        | _ => Except.error IErr.unknownClass
    | some _ => Except.error IErr.badTag
    | none =>
      match t with
      | FType.tcomp cls2 =>
        match lookupSch sch cls2 with
        | some fds =>
          match instFields sch fds es with
          | Except.ok built =>
            Except.ok (QVal.comp cls2 (reorderFields fds built))
          | Except.error e => Except.error e
        | none => Except.error IErr.unknownClass
      | FType.tdict te =>
        match instDict sch es te with
        | Except.ok es2 => Except.ok (QVal.vdict es2)
        | Except.error e => Except.error e
      | FType.tany =>
        match instDict sch es FType.tany with
        | Except.ok es2 => Except.ok (QVal.vdict es2)
        | Except.error e => Except.error e
      | _ => Except.error IErr.typeMismatch
termination_by structural pd

/-- Convert the entries of a tagged object, in document order,
skipping the type tag; a key matching no declared attribute is an
error. -/
def instFields (sch : Schema) (fds : List FieldDecl)
    (es : List (String × PVal)) : Except IErr (List (String × QVal)) :=
  match es with
  | [] => Except.ok []
  | (n, pv) :: rest =>
    if n == "__class__" then instFields sch fds rest
    else
      match findFd fds n with
      | none => Except.error IErr.unknownKey
      | some fd =>
        match instantiate sch pv fd.ftype with
        | Except.ok v =>
          match instFields sch fds rest with
          | Except.ok built => Except.ok ((n, v) :: built)
          | Except.error e => Except.error e
        | Except.error e => Except.error e
termination_by structural es

/-- Instantiate the elements of an array. -/
def instList (sch : Schema) (xs : List PVal) (te : FType) :
    Except IErr (List QVal) :=
  match xs with
  | [] => Except.ok []
  | pv :: rest =>
    match instantiate sch pv te with
    | Except.ok v =>
      match instList sch rest te with
      | Except.ok vs => Except.ok (v :: vs)
      | Except.error e => Except.error e
    | Except.error e => Except.error e
termination_by structural xs

/-- Instantiate the entries of an untagged object as a dict. -/
def instDict (sch : Schema) (es : List (String × PVal)) (te : FType) :
    Except IErr (List (String × QVal)) :=
  match es with
  | [] => Except.ok []
  | (n, pv) :: rest =>
    match instantiate sch pv te with
    | Except.ok v =>
      match instDict sch rest te with
      | Except.ok vs => Except.ok ((n, v) :: vs)
      | Except.error e => Except.error e
    | Except.error e => Except.error e
termination_by structural es

end

/-! ## Well-formed trees and schemas -/

/-- Whether a declared type admits a component value (declared node
type, or untyped as inside `QuamDict`/`QuamList`). -/
def admitsComp (t : FType) : Bool :=
  match t with
  | FType.tcomp _ => true
  | FType.tany => true
  | _ => false

mutual

/-- A value is well formed with respect to a declared type: primitives
match their declared type (a reference string is admitted in any
slot), a component's class is registered and its attributes align with
the declared fields in declaration order, and container elements are
well formed elementwise. -/
def wfVal (sch : Schema) (t : FType) (v : QVal) : Bool :=
  match v with
  | QVal.vint _ =>
    match t with
    | FType.tint => true
    | FType.tany => true
    | _ => false
  | QVal.vbool _ =>
    match t with
    | FType.tbool => true
    | FType.tany => true
    | _ => false
  | QVal.vstr s =>
    isReference s ||
      (match t with
       | FType.tstr => true
       | FType.tany => true
       | _ => false)
  | QVal.vnone => true
  | QVal.comp cls attrs =>
    admitsComp t &&
      (match lookupSch sch cls with
       | some fds => wfFields sch fds attrs
       | none => false)
  | QVal.vdict es =>
    match t with
    | FType.tdict te => wfDict sch te es
    | FType.tany => wfDict sch FType.tany es
    | _ => false
  | QVal.vlist xs =>
    match t with
    | FType.tlist te => wfList sch te xs
    | FType.tany => wfList sch FType.tany xs
    | _ => false
termination_by structural v

/-- A node's attributes align with its declared fields, positionally
and in declaration order. -/
def wfFields (sch : Schema) (fds : List FieldDecl)
    (attrs : List (String × QVal)) : Bool :=
  match fds, attrs with
  | [], [] => true
  | fd :: fds, (n, v) :: attrs =>
    (n == fd.fname) && wfVal sch fd.ftype v && wfFields sch fds attrs
  | _, _ => false
termination_by structural attrs

/-- Dict entries are well formed; a dict key may not collide with the
reserved type-tag key. -/
def wfDict (sch : Schema) (te : FType) (es : List (String × QVal)) : Bool :=
  match es with
  | [] => true
  | (n, v) :: rest =>
    !(n == "__class__") && wfVal sch te v && wfDict sch te rest
termination_by structural es

/-- List elements are well formed. -/
def wfList (sch : Schema) (te : FType) (xs : List QVal) : Bool :=
  match xs with
  | [] => true
  | v :: rest => wfVal sch te v && wfList sch te rest
termination_by structural xs

end

/-- Pairwise distinctness of a list of strings. -/
def nodupStr (ns : List String) : Bool :=
  match ns with
  | [] => true
  | n :: rest => !(rest.contains n) && nodupStr rest

/-- A class declaration is sane: field names are pairwise distinct and
never the reserved type-tag key. -/
def fieldsOk (fds : List FieldDecl) : Bool :=
  nodupStr (fds.map (fun fd => fd.fname)) &&
    fds.all (fun fd => !(fd.fname == "__class__"))

/-- Every class registered in the schema is sane. -/
def schemaOk (sch : Schema) : Bool :=
  sch.all (fun p => fieldsOk p.2)

/-- No registered class declares a `skip_save` (transient) field. -/
def noSkip (sch : Schema) : Bool :=
  sch.all (fun p => p.2.all (fun fd => !fd.fskipSave))

mutual

/-- The tree with every `skip_save` field reset to its declared
default: the image of a tree under a save/load cycle (a transient
field is not persisted, so loading restores its default). -/
def eraseSkip (sch : Schema) (v : QVal) : QVal :=
  match v with
  | QVal.comp cls attrs =>
    QVal.comp cls (eraseSkipFields sch ((lookupSch sch cls).getD []) attrs)
  | QVal.vdict es => QVal.vdict (eraseSkipDict sch es)
  | QVal.vlist xs => QVal.vlist (eraseSkipList sch xs)
  | v => v
termination_by structural v

/-- `eraseSkip` on attribute entries aligned with their declared
fields. -/
def eraseSkipFields (sch : Schema) (fds : List FieldDecl)
    (attrs : List (String × QVal)) : List (String × QVal) :=
  match fds, attrs with
  | fd :: fds, (n, v) :: attrs =>
    if fd.fskipSave then (n, fd.fdefault) :: eraseSkipFields sch fds attrs
    else (n, eraseSkip sch v) :: eraseSkipFields sch fds attrs
  | _, attrs => attrs
termination_by structural attrs

/-- `eraseSkip` on dict entries. -/
def eraseSkipDict (sch : Schema) (es : List (String × QVal)) :
    List (String × QVal) :=
  match es with
  | [] => []
  | (n, v) :: rest => (n, eraseSkip sch v) :: eraseSkipDict sch rest
termination_by structural es

/-- `eraseSkip` on list elements. -/
def eraseSkipList (sch : Schema) (xs : List QVal) : List QVal :=
  match xs with
  | [] => []
  | v :: rest => eraseSkip sch v :: eraseSkipList sch rest
termination_by structural xs

end

mutual

/-- The value `instFields` recovers from the flattened non-transient
attribute entries, in document order. -/
def convertedNonSkip (sch : Schema) (fds : List FieldDecl)
    (attrs : List (String × QVal)) : List (String × QVal) :=
  match fds, attrs with
  | fd :: fds, (n, v) :: attrs =>
    if fd.fskipSave then convertedNonSkip sch fds attrs
    else (n, eraseSkip sch v) :: convertedNonSkip sch fds attrs
  | _, _ => []
termination_by structural attrs

end

mutual

/-- Structural equivalence on every non-transient declared field: the
same concrete class at every component position, agreement on every
declared field not marked `skip_save` (recursively; a transient field
may differ), and elementwise agreement inside the container types. -/
def agreeNonTransient (sch : Schema) (v w : QVal) : Bool :=
  match v, w with
  | QVal.vint n, QVal.vint m => n == m
  | QVal.vbool a, QVal.vbool b => a == b
  | QVal.vstr a, QVal.vstr b => a == b
  | QVal.vnone, QVal.vnone => true
  | QVal.comp cls attrs, QVal.comp cls2 attrs2 =>
    (cls == cls2) &&
      (match lookupSch sch cls with
       | some fds => agreeFields sch fds attrs attrs2
       | none => false)
  | QVal.vdict es, QVal.vdict es2 => agreeDict sch es es2
  | QVal.vlist xs, QVal.vlist xs2 => agreeList sch xs xs2
  | _, _ => false
termination_by structural v

/-- Fieldwise agreement: names align positionally with the declared
fields; a `skip_save` field is exempt from the value comparison. -/
def agreeFields (sch : Schema) (fds : List FieldDecl)
    (attrs attrs2 : List (String × QVal)) : Bool :=
  match fds, attrs, attrs2 with
  | [], [], [] => true
  | fd :: fds, (n, v) :: attrs, (n2, w) :: attrs2 =>
    (n == n2) && (fd.fskipSave || agreeNonTransient sch v w) &&
      agreeFields sch fds attrs attrs2
  | _, _, _ => false
termination_by structural attrs

/-- Entrywise agreement of dict containers (items are not fields and
cannot be transient). -/
def agreeDict (sch : Schema) (es es2 : List (String × QVal)) : Bool :=
  match es, es2 with
  | [], [] => true
  | (n, v) :: es, (n2, w) :: es2 =>
    (n == n2) && agreeNonTransient sch v w && agreeDict sch es es2
  | _, _ => false
termination_by structural es

/-- Elementwise agreement of list containers. -/
def agreeList (sch : Schema) (xs xs2 : List QVal) : Bool :=
  match xs, xs2 with
  | [], [] => true
  | v :: xs, w :: xs2 => agreeNonTransient sch v w && agreeList sch xs xs2
  | _, _ => false
termination_by structural xs

end

/-! ## Persistence: multi-file save and folder load -/

/-- Modelled from the spec: `save` with a `content_mapping` in the
0.x format mapping one auxiliary document name to the list of
top-level attribute names written there; the main document keeps the
rest.  Only an object (the flattened root) can be split. -/
def saveSplit (pd : PVal) (mainName auxName : String)
    (names : List String) : Option (List (String × PVal)) :=
  match pd with
  | PVal.pobj es =>
    some
      [(mainName, PVal.pobj (es.filter (fun e => !(names.contains e.1)))),
       (auxName, PVal.pobj (es.filter (fun e => names.contains e.1)))]
  | _ => none

/-- Modelled from the spec: loading a folder reads the main document
plus all partitioned documents and merges their top-level entries
before instantiating. -/
def mergeDocs (docs : List (String × PVal)) : PVal :=
  PVal.pobj (docs.foldr (fun doc acc =>
    (match doc.2 with
     | PVal.pobj es => es
     | _ => []) ++ acc) [])

/-! ## Attribute-write protocol (overwrite protection and ownership) -/

/-- A raw value stored in one attribute slot of the live object graph:
the empty sentinel, a scalar literal, a string (a reference when it
starts with the reference sentinel), or a child component identified
by object identity. -/
inductive SlotVal : Type where
  | svEmpty
  | svInt (n : Int)
  | svStr (s : String)
  | svChild (id : Nat)

/-- Modelled from the spec: the failure modes of an attribute write. -/
inductive SetErr : Type where
  | overwriteProtectedError
  | ownershipError

/-- The object graph the write protocol acts on: each object's single
parent link, and the attribute slots. -/
structure PState : Type where
  parentOf : List (Nat × Option Nat)
  slots : List ((Nat × String) × SlotVal)

/-- The current raw value of a slot (empty when never written). -/
def lookupSlot (st : PState) (owner : Nat) (name : String) : SlotVal :=
  match st.slots.lookup (owner, name) with
  | some v => v
  | none => SlotVal.svEmpty

/-- The current parent link of an object. -/
def lookupParent (st : PState) (id : Nat) : Option Nat :=
  match st.parentOf.lookup id with
  | some p => p
  | none => none

/-- Store a raw value into a slot. -/
def writeSlot (st : PState) (owner : Nat) (name : String) (v : SlotVal) :
    PState :=
  { st with slots := ((owner, name), v) :: st.slots }

/-- Set an object's parent link. -/
def writeParent (st : PState) (id : Nat) (p : Option Nat) : PState :=
  { st with parentOf := (id, p) :: st.parentOf }

/-- The storing step of the write protocol, after the overwrite guard:
an already-parented component is rejected, anything else is stored
(a component also gets its parent link set to the owner). -/
def setSlotStore (st : PState) (owner : Nat) (name : String)
    (v : SlotVal) : Except SetErr PState :=
  match v with
  | SlotVal.svChild id =>
    match lookupParent st id with
    | some _ => Except.error SetErr.ownershipError
    | none =>
      Except.ok (writeParent (writeSlot st owner name v) id (some owner))
  | _ => Except.ok (writeSlot st owner name v)

/-- Modelled from the spec: the attribute-write protocol.  Setting the
empty sentinel clears the slot (always allowed).  If the current
stored value is a live (non-empty) reference and the new value is not
the empty sentinel, raise `OverwriteProtectedError` and leave the
state untouched.  If the new value is a component already structurally
parented elsewhere, raise `OwnershipError`.  Otherwise store the
value, and if it is a component set its parent link to the owner. -/
def setSlot (st : PState) (owner : Nat) (name : String) (v : SlotVal) :
    Except SetErr PState :=
  match v with
  | SlotVal.svEmpty => Except.ok (writeSlot st owner name SlotVal.svEmpty)
  | _ =>
    match lookupSlot st owner name with
    | SlotVal.svStr s =>
      if isReference s then Except.error SetErr.overwriteProtectedError
      else setSlotStore st owner name v
    | _ => setSlotStore st owner name v

/-! ## Root registry -/

/-- The process-wide registry of live `RootNode` instances. -/
structure RootRegistry : Type where
  roots : List Nat

/-- Modelled from the spec and the changelog (0.3.9 added a warning
when a new `QuamRoot` instance is created while a previous one exists;
0.3.10 removed that warning and added support for multiple `QuamRoot`
objects): constructing a new root registers it and returns the
warnings emitted and whether an exception was raised - currently no
warning and no exception, whatever the registry holds. -/
def constructRoot (reg : RootRegistry) (newId : Nat) :
    RootRegistry × List String × Bool :=
  ({ roots := reg.roots ++ [newId] }, [], false)

/-! ## Helper lemmas -/

lemma lookupSlot_writeSlot (st : PState) (o : Nat) (a : String)
    (w : SlotVal) : lookupSlot (writeSlot st o a w) o a = w := by
  simp [lookupSlot, writeSlot, List.lookup]

lemma lookupParent_writeParent (st : PState) (id : Nat) (p : Option Nat) :
    lookupParent (writeParent st id p) id = p := by
  simp [lookupParent, writeParent, List.lookup]

lemma walkUp_of_le : ∀ (k : Nat) (pos : List String), k ≤ pos.length →
    walkUp k pos = some (pos.take (pos.length - k)) := by
  intro k
  induction k with
  | zero =>
    intro pos h
    simp [walkUp]
  | succ n ih =>
    intro pos h
    match pos with
    | [] => simp at h
    | a :: rest =>
      have hstep : walkUp (n + 1) (a :: rest) =
          walkUp n ((a :: rest).dropLast) := rfl
      have hlen : ((a :: rest).dropLast).length = (a :: rest).length - 1 := by
        simp [List.length_dropLast]
      have hle : n ≤ ((a :: rest).dropLast).length := by
        rw [hlen]; simp at h ⊢; omega
      rw [hstep, ih _ hle]
      rw [List.dropLast_eq_take, List.take_take]
      have harith :
          ((List.take ((a :: rest).length - 1) (a :: rest)).length - n) ⊓
            ((a :: rest).length - 1) = (a :: rest).length - (n + 1) := by
        simp [List.length_take]
      rw [harith]

lemma walkUp_of_gt : ∀ (k : Nat) (pos : List String), pos.length < k →
    walkUp k pos = none := by
  intro k
  induction k with
  | zero => intro pos h; omega
  | succ n ih =>
    intro pos h
    match pos with
    | [] => rfl
    | a :: rest =>
      have hstep : walkUp (n + 1) (a :: rest) =
          walkUp n ((a :: rest).dropLast) := rfl
      rw [hstep, ih]
      simp [List.length_dropLast]
      simp at h
      omega

lemma lookupQ_setEntry_self : ∀ (es : List (String × QVal)) (seg : String)
    (v v2 : QVal), lookupQ es seg = some v →
    lookupQ (setEntry es seg v2) seg = some v2 := by
  intro es
  induction es with
  | nil => intro seg v v2 h; simp [lookupQ] at h
  | cons e rest ih =>
    intro seg v v2 h
    obtain ⟨n, u⟩ := e
    by_cases hn : (n == seg) = true
    · simp [setEntry, hn, lookupQ]
    · simp [lookupQ, hn] at h
      simp [setEntry, hn, lookupQ]
      exact ih seg v v2 h

lemma get?_lt_of_some : ∀ (xs : List QVal) (i : Nat) (v : QVal),
    xs.get? i = some v → i < xs.length := by
  intro xs
  induction xs with
  | nil => intro i v h; simp at h
  | cons x rest ih =>
    intro i v h
    cases i with
    | zero => simp
    | succ j =>
      have : rest.get? j = some v := h
      have := ih j v this
      simp
      omega

lemma get?_set_self : ∀ (xs : List QVal) (i : Nat) (v2 : QVal),
    i < xs.length → (xs.set i v2).get? i = some v2 := by
  intro xs
  induction xs with
  | nil => intro i v2 h; simp at h
  | cons x rest ih =>
    intro i v2 h
    cases i with
    | zero => rfl
    | succ j =>
      have hj : j < rest.length := by simp at h; omega
      exact ih j v2 hj

lemma valueAt_setAt : ∀ (pos : List String) (top top2 w : QVal),
    setAt top pos w = some top2 → valueAt top2 pos = some w := by
  intro pos
  induction pos with
  | nil =>
    intro top top2 w h
    simp [setAt] at h
    rw [← h]
    rfl
  | cons seg rest ih =>
    intro top top2 w h
    cases top with
    | comp cls attrs =>
      simp only [setAt] at h
      cases hlk : lookupQ attrs seg with
      | none => rw [hlk] at h; exact absurd h (by simp)
      | some v =>
        rw [hlk] at h
        have h2 : (match setAt v rest w with
            | some v2 => some (QVal.comp cls (setEntry attrs seg v2))
            | none => none) = some top2 := h
        cases hset : setAt v rest w with
        | none => rw [hset] at h2; exact absurd h2 (by simp)
        | some v2 =>
          rw [hset] at h2
          simp at h2
          rw [← h2]
          simp only [valueAt, childOf]
          rw [lookupQ_setEntry_self attrs seg v v2 hlk]
          exact ih v v2 w hset
    | vdict es =>
      simp only [setAt] at h
      cases hlk : lookupQ es seg with
      | none => rw [hlk] at h; exact absurd h (by simp)
      | some v =>
        rw [hlk] at h
        have h2 : (match setAt v rest w with
            | some v2 => some (QVal.vdict (setEntry es seg v2))
            | none => none) = some top2 := h
        cases hset : setAt v rest w with
        | none => rw [hset] at h2; exact absurd h2 (by simp)
        | some v2 =>
          rw [hset] at h2
          simp at h2
          rw [← h2]
          simp only [valueAt, childOf]
          rw [lookupQ_setEntry_self es seg v v2 hlk]
          exact ih v v2 w hset
    | vlist xs =>
      simp only [setAt] at h
      cases hns : natSeg seg with
      | none => rw [hns] at h; exact absurd h (by simp)
      | some i =>
        rw [hns] at h
        have h2 : (match xs.get? i with
            | some v =>
              match setAt v rest w with
              | some v2 => some (QVal.vlist (xs.set i v2))
              | none => none
            | none => none) = some top2 := h
        cases hget : xs.get? i with
        | none => rw [hget] at h2; exact absurd h2 (by simp)
        | some v =>
          rw [hget] at h2
          have h3 : (match setAt v rest w with
              | some v2 => some (QVal.vlist (xs.set i v2))
              | none => none) = some top2 := h2
          cases hset : setAt v rest w with
          | none => rw [hset] at h3; exact absurd h3 (by simp)
          | some v2 =>
            rw [hset] at h3
            simp at h3
            rw [← h3]
            simp only [valueAt, childOf, hns]
            rw [get?_set_self xs i v2 (get?_lt_of_some xs i v hget)]
            exact ih v v2 w hset
    | vint n => simp [setAt] at h
    | vbool b => simp [setAt] at h
    | vstr s => simp [setAt] at h
    | vnone => simp [setAt] at h

/-! ## C5: circular references -/

/-- C5: Reference resolution always terminates: for a node with
`x = "#./y"` and `y = "#./x"`, reading either attribute raises the
distinct circular-reference failure at every configured maximum hop
count, rather than recursing forever. -/
theorem c5_circular_reference_detection :
    ∀ fuel : Nat,
      getAttrFuel fuel
          ⟨QVal.comp "A" [("x", QVal.vstr "#./y"), ("y", QVal.vstr "#./x")],
           false⟩ [] "x" = Except.error RErr.circularReference ∧
      getAttrFuel fuel
          ⟨QVal.comp "A" [("x", QVal.vstr "#./y"), ("y", QVal.vstr "#./x")],
           false⟩ [] "y" = Except.error RErr.circularReference := by
  have key : ∀ fuel : Nat,
      resolveGo fuel
          ⟨QVal.comp "A" [("x", QVal.vstr "#./y"), ("y", QVal.vstr "#./x")],
           false⟩ [] ["x"] = Except.error RErr.circularReference ∧
      resolveGo fuel
          ⟨QVal.comp "A" [("x", QVal.vstr "#./y"), ("y", QVal.vstr "#./x")],
           false⟩ [] ["y"] = Except.error RErr.circularReference := by
    intro fuel
    induction fuel with
    | zero => exact ⟨rfl, rfl⟩
    | succ n ih =>
      refine ⟨?_, ?_⟩
      · have hstep : resolveGo (n + 1)
            ⟨QVal.comp "A" [("x", QVal.vstr "#./y"), ("y", QVal.vstr "#./x")],
             false⟩ [] ["x"] =
            (match resolveGo n
                ⟨QVal.comp "A"
                   [("x", QVal.vstr "#./y"), ("y", QVal.vstr "#./x")],
                 false⟩ [] ["y"] with
             | Except.error e => Except.error e
             | Except.ok addr =>
               resolveGo n
                 ⟨QVal.comp "A"
                    [("x", QVal.vstr "#./y"), ("y", QVal.vstr "#./x")],
                  false⟩ addr []) := rfl
        rw [hstep, ih.2]
      · have hstep : resolveGo (n + 1)
            ⟨QVal.comp "A" [("x", QVal.vstr "#./y"), ("y", QVal.vstr "#./x")],
             false⟩ [] ["y"] =
            (match resolveGo n
                ⟨QVal.comp "A"
                   [("x", QVal.vstr "#./y"), ("y", QVal.vstr "#./x")],
                 false⟩ [] ["x"] with
             | Except.error e => Except.error e
             | Except.ok addr =>
               resolveGo n
                 ⟨QVal.comp "A"
                    [("x", QVal.vstr "#./y"), ("y", QVal.vstr "#./x")],
                  false⟩ addr []) := rfl
        rw [hstep, ih.1]
  intro fuel
  refine ⟨?_, ?_⟩
  · have hstep : getAttrFuel fuel
        ⟨QVal.comp "A" [("x", QVal.vstr "#./y"), ("y", QVal.vstr "#./x")],
         false⟩ [] "x" =
        (match resolveGo fuel
            ⟨QVal.comp "A" [("x", QVal.vstr "#./y"), ("y", QVal.vstr "#./x")],
             false⟩ [] ["y"] with
         | Except.error e => Except.error e
         | Except.ok addr =>
           match valueAt
               (QVal.comp "A"
                 [("x", QVal.vstr "#./y"), ("y", QVal.vstr "#./x")]) addr with
           | some v => Except.ok v
           | none => Except.error RErr.missingSegment) := rfl
    rw [hstep, (key fuel).2]
  · have hstep : getAttrFuel fuel
        ⟨QVal.comp "A" [("x", QVal.vstr "#./y"), ("y", QVal.vstr "#./x")],
         false⟩ [] "y" =
        (match resolveGo fuel
            ⟨QVal.comp "A" [("x", QVal.vstr "#./y"), ("y", QVal.vstr "#./x")],
             false⟩ [] ["x"] with
         | Except.error e => Except.error e
         | Except.ok addr =>
           match valueAt
               (QVal.comp "A"
                 [("x", QVal.vstr "#./y"), ("y", QVal.vstr "#./x")]) addr with
           | some v => Except.ok v
           | none => Except.error RErr.missingSegment) := rfl
    rw [hstep, (key fuel).1]

/-! ## C2: overwrite protection -/

/-- C2: An attribute currently holding a live reference cannot be
directly overwritten: any non-empty assignment raises
`OverwriteProtectedError`; assigning the empty sentinel clears the
slot, after which an arbitrary non-empty literal or reference value is
accepted. -/
theorem c2_overwrite_protection
    (st : PState) (o : Nat) (a : String) (s : String) (v : SlotVal)
    (hcur : lookupSlot st o a = SlotVal.svStr s)
    (href : isReference s = true) :
    (v ≠ SlotVal.svEmpty →
       setSlot st o a v = Except.error SetErr.overwriteProtectedError) ∧
    setSlot st o a SlotVal.svEmpty =
      Except.ok (writeSlot st o a SlotVal.svEmpty) ∧
    (∀ w : SlotVal, (∀ id, w ≠ SlotVal.svChild id) → w ≠ SlotVal.svEmpty →
       setSlot (writeSlot st o a SlotVal.svEmpty) o a w =
         Except.ok (writeSlot (writeSlot st o a SlotVal.svEmpty) o a w)) := by
  refine ⟨?_, rfl, ?_⟩
  · intro hv
    cases v with
    | svEmpty => exact absurd rfl hv
    | svInt n => simp [setSlot, hcur, href]
    | svStr s2 => simp [setSlot, hcur, href]
    | svChild id => simp [setSlot, hcur, href]
  · intro w hwc hwe
    have hcleared : lookupSlot (writeSlot st o a SlotVal.svEmpty) o a =
        SlotVal.svEmpty := lookupSlot_writeSlot st o a SlotVal.svEmpty
    cases w with
    | svEmpty => exact absurd rfl hwe
    | svInt n => simp [setSlot, hcleared, setSlotStore]
    | svStr s2 => simp [setSlot, hcleared, setSlotStore]
    | svChild id => exact absurd rfl (hwc id)

/-- C2 witness: the documented scenario - `component.b = "#./a"`,
then `component.b = 43` raises, `component.b = None` clears, and
`component.b = 43` afterwards succeeds. -/
theorem c2_overwrite_protection_witness :
    lookupSlot (writeSlot ⟨[], []⟩ 0 "b" (SlotVal.svStr "#./a")) 0 "b" =
      SlotVal.svStr "#./a" ∧
    isReference "#./a" = true ∧
    setSlot (writeSlot ⟨[], []⟩ 0 "b" (SlotVal.svStr "#./a")) 0 "b"
        (SlotVal.svInt 43) = Except.error SetErr.overwriteProtectedError := by
  refine ⟨rfl, rfl, ?_⟩
  exact (c2_overwrite_protection
    (writeSlot ⟨[], []⟩ 0 "b" (SlotVal.svStr "#./a")) 0 "b" "#./a"
    (SlotVal.svInt 43) rfl rfl).1 (by intro h; cases h)

/-! ## C4: single ownership -/

/-- C4: Assigning a component into an attribute slot sets its parent
link to the owner; assigning a component that is already parented
elsewhere into any second slot raises `OwnershipError` instead of
silently duplicating the node. -/
theorem c4_single_ownership
    (st : PState) (o : Nat) (a : String) (id : Nat)
    (hcur : lookupSlot st o a = SlotVal.svEmpty) :
    (lookupParent st id = none →
       setSlot st o a (SlotVal.svChild id) =
         Except.ok
           (writeParent (writeSlot st o a (SlotVal.svChild id)) id (some o)) ∧
       lookupParent
           (writeParent (writeSlot st o a (SlotVal.svChild id)) id (some o))
           id = some o) ∧
    (∀ p, lookupParent st id = some p →
       setSlot st o a (SlotVal.svChild id) =
         Except.error SetErr.ownershipError) := by
  refine ⟨?_, ?_⟩
  · intro hnop
    refine ⟨?_, lookupParent_writeParent _ id (some o)⟩
    simp [setSlot, hcur, setSlotStore, hnop]
  · intro p hp
    simp [setSlot, hcur, setSlotStore, hp]

/-- C4 witness: a fresh component assigned once gets its parent set;
assigning the same component to a second owner errors. -/
theorem c4_single_ownership_witness :
    lookupSlot ⟨[], []⟩ 1 "qubit" = SlotVal.svEmpty ∧
    setSlot ⟨[], []⟩ 1 "qubit" (SlotVal.svChild 7) =
      Except.ok
        (writeParent (writeSlot ⟨[], []⟩ 1 "qubit" (SlotVal.svChild 7)) 7
          (some 1)) ∧
    setSlot
        (writeParent (writeSlot ⟨[], []⟩ 1 "qubit" (SlotVal.svChild 7)) 7
          (some 1)) 2 "qubit" (SlotVal.svChild 7) =
      Except.error SetErr.ownershipError := by
  refine ⟨rfl, ?_, ?_⟩
  · exact ((c4_single_ownership ⟨[], []⟩ 1 "qubit" 7 rfl).1 rfl).1
  · exact (c4_single_ownership
      (writeParent (writeSlot ⟨[], []⟩ 1 "qubit" (SlotVal.svChild 7)) 7
        (some 1)) 2 "qubit" 7 rfl).2 1 rfl

/-! ## C8: multiple root instances -/

/-- C8 counterexample: with a previous root (id 0) still registered,
constructing a second root emits no warning at all (the claim asserts
a warning is triggered); no exception is raised and the new root is
registered. -/
theorem c8_counterexample :
    (constructRoot ⟨[0]⟩ 1).2.1 = [] ∧
    (constructRoot ⟨[0]⟩ 1).2.2 = false ∧
    (constructRoot ⟨[0]⟩ 1).1.roots = [0, 1] :=
  ⟨rfl, rfl, rfl⟩

/-- C8 amended: constructing a new root while previous roots are
reachable raises no exception and - since the 0.3.10 changelog removed
the 0.3.9 warning - emits no warning either; the new root is
registered and usable alongside the existing ones. -/
theorem c8_no_warning_on_multiple_roots :
    ∀ (reg : RootRegistry) (newId : Nat),
      constructRoot reg newId =
        ({ roots := reg.roots ++ [newId] }, [], false) :=
  fun _ _ => rfl

/-! ## C6: anchor selection -/

/-- C6: The anchor of a reference walk is selected by the reference's
prefix: an absolute reference resolves from the root of the live tree
(an error when the owning node is not attached under a `RootNode`); a
relative reference resolves from the owning node itself; a
parent-relative reference of depth `k` resolves from the node `k`
parent links up (an error when the parent chain is shorter than `k`);
and full resolution factors through exactly this anchor selection. -/
theorem c6_anchor_selection
    (ctx : TreeCtx) (pos : List String) (s : String) :
    (∀ segs, parseRef s = some (RefForm.abs segs) →
       (ctx.topIsRoot = true →
          anchorOf ctx pos (RefForm.abs segs) = Except.ok []) ∧
       (ctx.topIsRoot = false →
          anchorOf ctx pos (RefForm.abs segs) =
            Except.error RErr.notAttached)) ∧
    (∀ k segs, parseRef s = some (RefForm.rel k segs) →
       (k = 0 → anchorOf ctx pos (RefForm.rel k segs) = Except.ok pos) ∧
       (k ≤ pos.length →
          anchorOf ctx pos (RefForm.rel k segs) =
            Except.ok (pos.take (pos.length - k))) ∧
       (pos.length < k →
          anchorOf ctx pos (RefForm.rel k segs) =
            Except.error RErr.parentChainTooShort)) ∧
    (∀ (fuel : Nat) (f : RefForm), parseRef s = some f →
       resolveRefAddr fuel ctx pos s =
         (match anchorOf ctx pos f with
          | Except.error e => Except.error e
          | Except.ok apos => resolveGo fuel ctx apos (segsOf f))) := by
  refine ⟨?_, ?_, ?_⟩
  · intro segs _
    constructor
    · intro hroot; simp [anchorOf, hroot]
    · intro hroot; simp [anchorOf, hroot]
  · intro k segs _
    refine ⟨?_, ?_, ?_⟩
    · intro hk; subst hk; simp [anchorOf, walkUp]
    · intro hk; simp [anchorOf, walkUp_of_le k pos hk]
    · intro hk; simp [anchorOf, walkUp_of_gt k pos hk]
  · intro fuel f hparse
    simp [resolveRefAddr, hparse]

/-- C6 witness: concrete references of each of the three kinds, on a
node three levels deep, plus the two error cases. -/
theorem c6_anchor_selection_witness :
    parseRef "#/a/b" = some (RefForm.abs ["a", "b"]) ∧
    parseRef "#./x" = some (RefForm.rel 0 ["x"]) ∧
    parseRef "#../../a" = some (RefForm.rel 2 ["a"]) ∧
    anchorOf ⟨QVal.vnone, true⟩ ["p", "q", "r"] (RefForm.abs ["a", "b"]) =
      Except.ok [] ∧
    anchorOf ⟨QVal.vnone, false⟩ ["p", "q", "r"] (RefForm.abs ["a", "b"]) =
      Except.error RErr.notAttached ∧
    anchorOf ⟨QVal.vnone, false⟩ ["p", "q", "r"] (RefForm.rel 0 ["x"]) =
      Except.ok ["p", "q", "r"] ∧
    anchorOf ⟨QVal.vnone, false⟩ ["p", "q", "r"] (RefForm.rel 2 ["a"]) =
      Except.ok ["p"] ∧
    anchorOf ⟨QVal.vnone, false⟩ ["p"] (RefForm.rel 2 ["a"]) =
      Except.error RErr.parentChainTooShort := by
  refine ⟨rfl, rfl, rfl, ?_, ?_, ?_, ?_, ?_⟩
  · exact ((c6_anchor_selection ⟨QVal.vnone, true⟩ ["p", "q", "r"]
      "#/a/b").1 ["a", "b"] rfl).1 rfl
  · exact ((c6_anchor_selection ⟨QVal.vnone, false⟩ ["p", "q", "r"]
      "#/a/b").1 ["a", "b"] rfl).2 rfl
  · exact ((c6_anchor_selection ⟨QVal.vnone, false⟩ ["p", "q", "r"]
      "#./x").2.1 0 ["x"] rfl).1 rfl
  · exact ((c6_anchor_selection ⟨QVal.vnone, false⟩ ["p", "q", "r"]
      "#../../a").2.1 2 ["a"] rfl).2.1 (by simp)
  · exact ((c6_anchor_selection ⟨QVal.vnone, false⟩ ["p"]
      "#../../a").2.1 2 ["a"] rfl).2.2 (by simp)

/-! ## C9: strict and permissive dangling references -/

/-- C9: A reference whose path fails to resolve is governed by the
process-wide `raise_error_missing_reference` switch: strict mode
raises the error, permissive mode returns the distinguished missing
sentinel; in neither mode is a dangling reference silently returned as
an ordinary value (in particular not as `None`). -/
theorem c9_missing_reference_mode
    (cfg : QuamConfig) (fuel : Nat) (ctx : TreeCtx) (pos : List String)
    (name : String)
    (hmiss : getAttrFuel fuel ctx pos name =
      Except.error RErr.missingSegment) :
    (cfg.raiseErrorMissingReference = true →
       getAttrCfg cfg fuel ctx pos name = GetResult.err RErr.missingSegment) ∧
    (cfg.raiseErrorMissingReference = false →
       getAttrCfg cfg fuel ctx pos name = GetResult.missingSentinel) ∧
    (∀ v : QVal, getAttrCfg cfg fuel ctx pos name ≠ GetResult.val v) := by
  refine ⟨?_, ?_, ?_⟩
  · intro hc; simp [getAttrCfg, hmiss, hc]
  · intro hc; simp [getAttrCfg, hmiss, hc]
  · intro v
    cases hc : cfg.raiseErrorMissingReference <;>
      simp [getAttrCfg, hmiss, hc]

/-- C9 witness: a dangling relative reference `"#./miss"` on a node
without a `miss` attribute, read under both modes. -/
theorem c9_missing_reference_mode_witness :
    getAttrFuel 10 ⟨QVal.comp "C" [("b", QVal.vstr "#./miss")], false⟩ []
      "b" = Except.error RErr.missingSegment ∧
    getAttrCfg ⟨true⟩ 10 ⟨QVal.comp "C" [("b", QVal.vstr "#./miss")], false⟩
      [] "b" = GetResult.err RErr.missingSegment ∧
    getAttrCfg ⟨false⟩ 10 ⟨QVal.comp "C" [("b", QVal.vstr "#./miss")], false⟩
      [] "b" = GetResult.missingSentinel := by
  refine ⟨rfl, ?_, ?_⟩
  · exact (c9_missing_reference_mode ⟨true⟩ 10
      ⟨QVal.comp "C" [("b", QVal.vstr "#./miss")], false⟩ [] "b" rfl).1 rfl
  · exact (c9_missing_reference_mode ⟨false⟩ 10
      ⟨QVal.comp "C" [("b", QVal.vstr "#./miss")], false⟩ [] "b" rfl).2.1 rfl

/-! ## C1: fresh resolution, no caching -/

/-- C1: Reading an attribute whose stored raw value is a reference
resolves it afresh against the current tree and returns the live value
at the referenced address; after the referenced target is overwritten,
the next read returns the new value - no resolved value is ever cached
on the node. -/
theorem c1_fresh_reference_read
    (fuel : Nat) (ctx : TreeCtx) (pos : List String) (name s : String)
    (owner : QVal) (addr : List String) (v w top2 : QVal)
    (howner : valueAt ctx.top pos = some owner)
    (hraw : childOf owner name = some (QVal.vstr s))
    (href : isReference s = true)
    (hres : resolveRefAddr fuel ctx pos s = Except.ok addr)
    (hval : valueAt ctx.top addr = some v) :
    getAttrFuel fuel ctx pos name = Except.ok v ∧
    (∀ owner2 : QVal,
       setAt ctx.top addr w = some top2 →
       valueAt top2 pos = some owner2 →
       childOf owner2 name = some (QVal.vstr s) →
       resolveRefAddr fuel ⟨top2, ctx.topIsRoot⟩ pos s = Except.ok addr →
       getAttrFuel fuel ⟨top2, ctx.topIsRoot⟩ pos name = Except.ok w) := by
  constructor
  · simp [getAttrFuel, howner, hraw, href, hres, hval]
  · intro owner2 hset howner2 hraw2 hres2
    have hval2 : valueAt top2 addr = some w :=
      valueAt_setAt addr ctx.top top2 w hset
    simp [getAttrFuel, howner2, hraw2, href, hres2, hval2]

/-- C1 witness: the documented example `Component(a=42, b="#./a")` -
reading `b` yields `42`; after setting `a` to `7`, reading `b` yields
`7` without any re-save. -/
theorem c1_fresh_reference_read_witness :
    getAttrFuel 10
        ⟨QVal.comp "Component" [("a", QVal.vint 42), ("b", QVal.vstr "#./a")],
         false⟩ [] "b" = Except.ok (QVal.vint 42) ∧
    getAttrFuel 10
        ⟨QVal.comp "Component" [("a", QVal.vint 7), ("b", QVal.vstr "#./a")],
         false⟩ [] "b" = Except.ok (QVal.vint 7) := by
  have h := c1_fresh_reference_read 10
    ⟨QVal.comp "Component" [("a", QVal.vint 42), ("b", QVal.vstr "#./a")],
     false⟩ [] "b" "#./a"
    (QVal.comp "Component" [("a", QVal.vint 42), ("b", QVal.vstr "#./a")])
    ["a"] (QVal.vint 42) (QVal.vint 7)
    (QVal.comp "Component" [("a", QVal.vint 7), ("b", QVal.vstr "#./a")])
    rfl rfl rfl rfl rfl
  exact ⟨h.1, h.2
    (QVal.comp "Component" [("a", QVal.vint 7), ("b", QVal.vstr "#./a")])
    rfl rfl rfl rfl⟩

/-! ## C7 and C10: serialization of fields -/

lemma lookupEntry_toDictFields_notSkip :
    ∀ (sch : Schema) (skips : List String) (es : List (String × QVal))
      (name : String), skips.contains name = false →
      lookupEntry (toDictFields sch skips es) name =
        (lookupQ es name).map (toDict sch) := by
  intro sch skips es
  induction es with
  | nil => intro name _; rfl
  | cons e rest ih =>
    intro name hns
    have hns2 : name ∉ skips := by simpa using hns
    obtain ⟨n, v⟩ := e
    by_cases hn : (n == name) = true
    · have heq : n = name := by simpa using hn
      subst heq
      simp [toDictFields, hns2, lookupEntry, lookupQ]
    · by_cases hsk : n ∈ skips
      · simp [toDictFields, hsk, lookupQ, hn, ih name hns]
      · simp [toDictFields, hsk, lookupEntry, lookupQ, hn, ih name hns]

lemma lookupEntry_toDictFields_skip :
    ∀ (sch : Schema) (skips : List String) (es : List (String × QVal))
      (name : String), skips.contains name = true →
      lookupEntry (toDictFields sch skips es) name = none := by
  intro sch skips es
  induction es with
  | nil => intro name _; rfl
  | cons e rest ih =>
    intro name hns
    have hns2 : name ∈ skips := by simpa using hns
    obtain ⟨n, v⟩ := e
    by_cases hsk : n ∈ skips
    · simp [toDictFields, hsk, ih name hns]
    · have hn : (n == name) = false := by
        by_contra hcon
        simp only [Bool.not_eq_false, beq_iff_eq] at hcon
        subst hcon
        exact hsk hns2
      simp [toDictFields, hsk, lookupEntry, hn, ih name hns]

lemma findFd_mem_name : ∀ (fds : List FieldDecl) (name : String)
    (fd : FieldDecl), findFd fds name = some fd →
    fd ∈ fds ∧ fd.fname = name := by
  intro fds
  induction fds with
  | nil => intro name fd h; simp [findFd] at h
  | cons f rest ih =>
    intro name fd h
    by_cases hn : (f.fname == name) = true
    · simp [findFd, hn] at h
      subst h
      exact ⟨List.mem_cons_self f rest, by simpa using hn⟩
    · simp [findFd, hn] at h
      obtain ⟨hmem, hname⟩ := ih name fd h
      exact ⟨List.mem_cons_of_mem f hmem, hname⟩

lemma containsStr_of_mem : ∀ (ns : List String) (x : String), x ∈ ns →
    ns.contains x = true := by
  intro ns x h
  induction ns with
  | nil => simp at h
  | cons n rest ih =>
    rcases List.mem_cons.mp h with heq | hmem
    · subst heq; simp [List.contains]
    · have := ih hmem
      simp [List.contains] at this ⊢
      exact Or.inr this

lemma skipNames_contains (sch : Schema) (cls : String)
    (fds : List FieldDecl) (fd : FieldDecl) (name : String)
    (hlk : lookupSch sch cls = some fds)
    (hfind : findFd fds name = some fd)
    (hskip : fd.fskipSave = true) :
    (skipNames sch cls).contains name = true := by
  obtain ⟨hmem, hname⟩ := findFd_mem_name fds name fd hfind
  have hmem2 : fd ∈ fds.filter (fun fd => fd.fskipSave) :=
    List.mem_filter.mpr ⟨hmem, by simp [hskip]⟩
  have hmem3 : name ∈ (fds.filter (fun fd => fd.fskipSave)).map
      (fun fd => fd.fname) := by
    rw [← hname]
    exact List.mem_map_of_mem _ hmem2
  rw [skipNames, hlk]
  exact containsStr_of_mem _ name hmem3

lemma toDictList_length : ∀ (sch : Schema) (xs : List QVal),
    (toDictList sch xs).length = xs.length := by
  intro sch xs
  induction xs with
  | nil => rfl
  | cons x rest ih => simp [toDictList, ih]

/-- C7 counterexample: a field `b` declared with static type `B`
holding a component whose runtime class is exactly `B`: the claim says
no type tag is emitted in that case, but the flattened output embeds
`"__class__": "B"` anyway (the 0.4.0 changelog: `__class__` is added
even if the target class matches the expected type). -/
theorem c7_counterexample :
    (findFd [⟨"b", FType.tcomp "B", false, QVal.vnone⟩] "b").map
      FieldDecl.ftype = some (FType.tcomp "B") ∧
    toDict
        [("A", [⟨"b", FType.tcomp "B", false, QVal.vnone⟩]),
         ("B", [⟨"x", FType.tint, false, QVal.vnone⟩])]
        (QVal.comp "A" [("b", QVal.comp "B" [("x", QVal.vint 5)])]) =
      PVal.pobj
        [("__class__", PVal.pstr "A"),
         ("b", PVal.pobj [("__class__", PVal.pstr "B"), ("x", PVal.pint 5)])] ∧
    lookupEntry [("__class__", PVal.pstr "B"), ("x", PVal.pint 5)]
      "__class__" ≠ none := by
  refine ⟨rfl, rfl, ?_⟩
  intro h
  simp [lookupEntry] at h

/-- C7 amended: a nested node's flattened output always carries the
explicit `__class__` type tag, whether or not the runtime class
matches the attribute's declared type (the declared type is not even
consulted when flattening). -/
theorem c7_class_tag_always_emitted
    (sch : Schema) (skips : List String) (pattrs : List (String × QVal))
    (name cls : String) (attrs : List (String × QVal))
    (hfield : lookupQ pattrs name = some (QVal.comp cls attrs))
    (hns : skips.contains name = false) :
    lookupEntry (toDictFields sch skips pattrs) name =
      some (PVal.pobj (("__class__", PVal.pstr cls) ::
        toDictFields sch (skipNames sch cls) attrs)) := by
  rw [lookupEntry_toDictFields_notSkip sch skips pattrs name hns, hfield]
  rfl

/-- C7 amended witness: the counterexample tree, through the amended
statement. -/
theorem c7_class_tag_always_emitted_witness :
    lookupEntry
        (toDictFields
          [("A", [⟨"b", FType.tcomp "B", false, QVal.vnone⟩]),
           ("B", [⟨"x", FType.tint, false, QVal.vnone⟩])]
          [] [("b", QVal.comp "B" [("x", QVal.vint 5)])]) "b" =
      some (PVal.pobj [("__class__", PVal.pstr "B"), ("x", PVal.pint 5)]) := by
  exact c7_class_tag_always_emitted
    [("A", [⟨"b", FType.tcomp "B", false, QVal.vnone⟩]),
     ("B", [⟨"x", FType.tint, false, QVal.vnone⟩])]
    [] [("b", QVal.comp "B" [("x", QVal.vint 5)])] "b" "B"
    [("x", QVal.vint 5)] rfl rfl

/-- C10: A field declared with `skip_save` metadata is omitted from
the flattened output entirely, including the whole nested subtree when
it holds a component, yet it remains fully readable and writable at
runtime; items inside the container types are always serialized and
cannot be individually excluded. -/
theorem c10_skip_save_fields
    (sch : Schema) (cls : String) (fds : List FieldDecl) (fd : FieldDecl)
    (attrs : List (String × QVal)) (name : String)
    (hlk : lookupSch sch cls = some fds)
    (hfind : findFd fds name = some fd)
    (hskip : fd.fskipSave = true) :
    lookupEntry (toDictFields sch (skipNames sch cls) attrs) name = none ∧
    toDict sch (QVal.comp cls attrs) =
      PVal.pobj (("__class__", PVal.pstr cls) ::
        toDictFields sch (skipNames sch cls) attrs) ∧
    (∀ (st : PState) (o : Nat) (w : SlotVal),
       lookupSlot st o name = SlotVal.svEmpty →
       (∀ id, w ≠ SlotVal.svChild id) →
       setSlot st o name w = Except.ok (writeSlot st o name w) ∧
       lookupSlot (writeSlot st o name w) o name = w) ∧
    (∀ es : List (String × QVal),
       toDict sch (QVal.vdict es) = PVal.pobj (toDictFields sch [] es)) ∧
    (∀ (es : List (String × QVal)) (k : String),
       lookupEntry (toDictFields sch [] es) k =
         (lookupQ es k).map (toDict sch)) ∧
    (∀ xs : List QVal, (toDictList sch xs).length = xs.length) := by
  refine ⟨?_, rfl, ?_, ?_, ?_, ?_⟩
  · exact lookupEntry_toDictFields_skip sch _ attrs name
      (skipNames_contains sch cls fds fd name hlk hfind hskip)
  · intro st o w hcur hwc
    refine ⟨?_, lookupSlot_writeSlot st o name w⟩
    cases w with
    | svEmpty => rfl
    | svInt n => simp [setSlot, hcur, setSlotStore]
    | svStr s2 => simp [setSlot, hcur, setSlotStore]
    | svChild id => exact absurd rfl (hwc id)
  · intro es; rfl
  · intro es k
    exact lookupEntry_toDictFields_notSkip sch [] es k rfl
  · exact toDictList_length sch

/-- C10 witness: the documented `OuterComponent` example - the
`hidden` component subtree is absent from the output, which contains
only the class tag and `visible`, while a slot write and read of the
hidden field still succeed. -/
theorem c10_skip_save_fields_witness :
    toDict
        [("OuterComponent",
          [⟨"visible", FType.tint, false, QVal.vint 2⟩,
           ⟨"hidden", FType.tcomp "InnerComponent", true, QVal.vnone⟩]),
         ("InnerComponent",
          [⟨"inner_value", FType.tint, false, QVal.vint 1⟩])]
        (QVal.comp "OuterComponent"
          [("visible", QVal.vint 2),
           ("hidden", QVal.comp "InnerComponent"
             [("inner_value", QVal.vint 1)])]) =
      PVal.pobj [("__class__", PVal.pstr "OuterComponent"),
        ("visible", PVal.pint 2)] ∧
    lookupEntry
        (toDictFields
          [("OuterComponent",
            [⟨"visible", FType.tint, false, QVal.vint 2⟩,
             ⟨"hidden", FType.tcomp "InnerComponent", true, QVal.vnone⟩]),
           ("InnerComponent",
            [⟨"inner_value", FType.tint, false, QVal.vint 1⟩])]
          (skipNames
            [("OuterComponent",
              [⟨"visible", FType.tint, false, QVal.vint 2⟩,
               ⟨"hidden", FType.tcomp "InnerComponent", true, QVal.vnone⟩]),
             ("InnerComponent",
              [⟨"inner_value", FType.tint, false, QVal.vint 1⟩])]
            "OuterComponent")
          [("visible", QVal.vint 2),
           ("hidden", QVal.comp "InnerComponent"
             [("inner_value", QVal.vint 1)])]) "hidden" = none ∧
    setSlot ⟨[], []⟩ 3 "hidden" (SlotVal.svInt 9) =
      Except.ok (writeSlot ⟨[], []⟩ 3 "hidden" (SlotVal.svInt 9)) := by
  refine ⟨rfl, ?_, ?_⟩
  · exact (c10_skip_save_fields
      [("OuterComponent",
        [⟨"visible", FType.tint, false, QVal.vint 2⟩,
         ⟨"hidden", FType.tcomp "InnerComponent", true, QVal.vnone⟩]),
       ("InnerComponent",
        [⟨"inner_value", FType.tint, false, QVal.vint 1⟩])]
      "OuterComponent"
      [⟨"visible", FType.tint, false, QVal.vint 2⟩,
       ⟨"hidden", FType.tcomp "InnerComponent", true, QVal.vnone⟩]
      ⟨"hidden", FType.tcomp "InnerComponent", true, QVal.vnone⟩
      [("visible", QVal.vint 2),
       ("hidden", QVal.comp "InnerComponent" [("inner_value", QVal.vint 1)])]
      "hidden" rfl rfl rfl).1
  · exact ((c10_skip_save_fields
      [("OuterComponent",
        [⟨"visible", FType.tint, false, QVal.vint 2⟩,
         ⟨"hidden", FType.tcomp "InnerComponent", true, QVal.vnone⟩]),
       ("InnerComponent",
        [⟨"inner_value", FType.tint, false, QVal.vint 1⟩])]
      "OuterComponent"
      [⟨"visible", FType.tint, false, QVal.vint 2⟩,
       ⟨"hidden", FType.tcomp "InnerComponent", true, QVal.vnone⟩]
      ⟨"hidden", FType.tcomp "InnerComponent", true, QVal.vnone⟩
      [("visible", QVal.vint 2),
       ("hidden", QVal.comp "InnerComponent" [("inner_value", QVal.vint 1)])]
      "hidden" rfl rfl rfl).2.2.1 ⟨[], []⟩ 3 (SlotVal.svInt 9) rfl
      (by intro id h; cases h)).1

/-! ## C3: flatten/instantiate round trip - bookkeeping lemmas -/

lemma containsStr_iff (ns : List String) (x : String) :
    ns.contains x = true ↔ x ∈ ns := by simp

lemma containsStr_false (ns : List String) (x : String) :
    ns.contains x = false ↔ x ∉ ns := by simp

lemma schemaOk_lookup : ∀ (sch : Schema) (cls : String)
    (fds : List FieldDecl), schemaOk sch = true →
    lookupSch sch cls = some fds → fieldsOk fds = true := by
  intro sch
  induction sch with
  | nil => intro cls fds _ h; simp [lookupSch] at h
  | cons p rest ih =>
    intro cls fds hok hlk
    obtain ⟨c, f⟩ := p
    have hok2 : fieldsOk f = true ∧ schemaOk rest = true := by
      simpa [schemaOk, List.all_cons] using hok
    by_cases hc : (c == cls) = true
    · simp [lookupSch, hc] at hlk
      rw [← hlk]
      exact hok2.1
    · simp [lookupSch, hc] at hlk
      exact ih cls fds hok2.2 hlk

lemma noSkip_lookup : ∀ (sch : Schema) (cls : String)
    (fds : List FieldDecl), noSkip sch = true →
    lookupSch sch cls = some fds → ∀ fd ∈ fds, fd.fskipSave = false := by
  intro sch
  induction sch with
  | nil => intro cls fds _ h; simp [lookupSch] at h
  | cons p rest ih =>
    intro cls fds hok hlk
    obtain ⟨c, f⟩ := p
    have hok2 : (f.all (fun fd => !fd.fskipSave) = true) ∧
        noSkip rest = true := by
      simpa [noSkip, List.all_cons] using hok
    by_cases hc : (c == cls) = true
    · simp [lookupSch, hc] at hlk
      intro fd hfd
      rw [← hlk] at hfd
      have := List.all_eq_true.mp hok2.1 fd hfd
      simpa using this
    · simp [lookupSch, hc] at hlk
      exact ih cls fds hok2.2 hlk

lemma skipNames_nil (sch : Schema) (cls : String) (fds : List FieldDecl)
    (hlk : lookupSch sch cls = some fds)
    (hns : ∀ fd ∈ fds, fd.fskipSave = false) :
    skipNames sch cls = [] := by
  rw [skipNames, hlk]
  have : fds.filter (fun fd => fd.fskipSave) = [] := by
    rw [List.filter_eq_nil_iff]
    intro fd hfd
    simp [hns fd hfd]
  simp [this]

lemma fieldsOk_parts (fds : List FieldDecl) (h : fieldsOk fds = true) :
    nodupStr (fds.map (fun fd => fd.fname)) = true ∧
    ∀ fd ∈ fds, (fd.fname == "__class__") = false := by
  have h2 := h
  rw [fieldsOk, Bool.and_eq_true] at h2
  refine ⟨h2.1, ?_⟩
  intro fd hfd
  have := List.all_eq_true.mp h2.2 fd hfd
  simpa using this

lemma nodupStr_parts (n : String) (rest : List String)
    (h : nodupStr (n :: rest) = true) :
    rest.contains n = false ∧ nodupStr rest = true := by
  simpa [nodupStr, Bool.and_eq_true] using h

lemma findFd_self : ∀ (fds : List FieldDecl),
    nodupStr (fds.map (fun fd => fd.fname)) = true →
    ∀ fd ∈ fds, findFd fds fd.fname = some fd := by
  intro fds
  induction fds with
  | nil => intro _ fd h; simp at h
  | cons f rest ih =>
    intro hnd fd hfd
    have hnd2 := nodupStr_parts f.fname (rest.map (fun fd => fd.fname))
      (by simpa [List.map_cons] using hnd)
    rcases List.mem_cons.mp hfd with heq | hmem
    · subst heq
      simp [findFd]
    · have hne : (f.fname == fd.fname) = false := by
        by_contra hcon
        simp only [Bool.not_eq_false, beq_iff_eq] at hcon
        have hmm : f.fname ∈ rest.map (fun fd => fd.fname) := by
          rw [hcon]
          exact List.mem_map_of_mem _ hmem
        exact absurd hmm ((containsStr_false _ _).mp hnd2.1)
      simp [findFd, hne]
      exact ih hnd2.2 fd hmem

lemma findFd_isSome_of_mem : ∀ (fds : List FieldDecl) (fd : FieldDecl),
    fd ∈ fds → ∃ fd0, findFd fds fd.fname = some fd0 := by
  intro fds
  induction fds with
  | nil => intro fd h; simp at h
  | cons f rest ih =>
    intro fd hfd
    by_cases hne : (f.fname == fd.fname) = true
    · exact ⟨f, by simp [findFd, hne]⟩
    · rcases List.mem_cons.mp hfd with heq | hmem
      · subst heq; simp at hne
      · obtain ⟨fd0, h0⟩ := ih fd hmem
        exact ⟨fd0, by simp [findFd, hne, h0]⟩

lemma skipNames_eq (sch : Schema) (cls : String) (fds : List FieldDecl)
    (hlk : lookupSch sch cls = some fds) (hok : fieldsOk fds = true) :
    ∀ fd ∈ fds, (skipNames sch cls).contains fd.fname = fd.fskipSave := by
  intro fd hfd
  obtain ⟨hnd, _⟩ := fieldsOk_parts fds hok
  cases hsk : fd.fskipSave with
  | true =>
    exact skipNames_contains sch cls fds fd fd.fname hlk
      (findFd_self fds hnd fd hfd) hsk
  | false =>
    rw [skipNames, hlk]
    by_contra hcon
    simp only [Bool.not_eq_false] at hcon
    rw [containsStr_iff] at hcon
    obtain ⟨fd2, hfd2, hname2⟩ := List.mem_map.mp hcon
    obtain ⟨hfd2m, hfd2s⟩ := List.mem_filter.mp hfd2
    have hfind2 : findFd fds fd2.fname = some fd2 :=
      findFd_self fds hnd fd2 hfd2m
    have hfind : findFd fds fd.fname = some fd := findFd_self fds hnd fd hfd
    rw [hname2, hfind] at hfind2
    have heq2 : fd = fd2 := by simpa using hfind2
    subst heq2
    rw [hsk] at hfd2s
    simp at hfd2s

lemma wfFields_names : ∀ (sch : Schema) (fds : List FieldDecl)
    (attrs : List (String × QVal)), wfFields sch fds attrs = true →
    attrs.map Prod.fst = fds.map (fun fd => fd.fname) := by
  intro sch fds
  induction fds with
  | nil =>
    intro attrs h
    cases attrs with
    | nil => rfl
    | cons a as => simp [wfFields] at h
  | cons fd rest ih =>
    intro attrs h
    cases attrs with
    | nil => simp [wfFields] at h
    | cons a as =>
      obtain ⟨n, v⟩ := a
      simp only [wfFields, Bool.and_eq_true] at h
      obtain ⟨⟨hn, _⟩, hrest⟩ := h
      have : n = fd.fname := by simpa using hn
      simp [this, ih as hrest]

lemma lookupQ_convertedNonSkip_none : ∀ (sch : Schema)
    (fds : List FieldDecl) (attrs : List (String × QVal)) (x : String),
    wfFields sch fds attrs = true →
    (fds.map (fun fd => fd.fname)).contains x = false →
    lookupQ (convertedNonSkip sch fds attrs) x = none := by
  intro sch fds
  induction fds with
  | nil =>
    intro attrs x h _
    cases attrs with
    | nil => rfl
    | cons a as => simp [wfFields] at h
  | cons fd rest ih =>
    intro attrs x h hnc
    cases attrs with
    | nil => simp [wfFields] at h
    | cons a as =>
      obtain ⟨n, v⟩ := a
      simp only [wfFields, Bool.and_eq_true] at h
      obtain ⟨⟨hn, _⟩, hrest⟩ := h
      have hne : n = fd.fname := by simpa using hn
      have hnotmem : x ∉ (fd.fname :: rest.map (fun fd => fd.fname)) := by
        have := (containsStr_false _ _).mp hnc
        simpa [List.map_cons] using this
      have hx1 : x ≠ fd.fname := fun hcon => hnotmem (hcon ▸ List.mem_cons_self _ _)
      have hx2 : (rest.map (fun fd => fd.fname)).contains x = false :=
        (containsStr_false _ _).mpr (fun hcon => hnotmem (List.mem_cons_of_mem _ hcon))
      cases hsk : fd.fskipSave with
      | true =>
        simp only [convertedNonSkip, hsk, if_true]
        exact ih as x hrest hx2
      | false =>
        simp only [convertedNonSkip, hsk, if_false]
        have hb : (n == x) = false := by
          rw [hne]
          simp only [beq_eq_false_iff_ne]
          exact fun hcon => hx1 hcon.symm
        simp only [lookupQ, hb, if_false]
        exact ih as x hrest hx2

lemma reorderFields_cons (fd : FieldDecl) (fds : List FieldDecl)
    (built : List (String × QVal)) :
    reorderFields (fd :: fds) built =
      (fd.fname, (lookupQ built fd.fname).getD fd.fdefault) ::
        reorderFields fds built := rfl

lemma reorder_cons_irrelevant : ∀ (fds : List FieldDecl) (x : String)
    (w : QVal) (built : List (String × QVal)),
    (∀ fd ∈ fds, fd.fname ≠ x) →
    reorderFields fds ((x, w) :: built) = reorderFields fds built := by
  intro fds x w built h
  unfold reorderFields
  apply List.map_congr_left
  intro fd hfd
  have hb : (x == fd.fname) = false := by
    simp only [beq_eq_false_iff_ne]
    exact fun hc => (h fd hfd) hc.symm
  simp [lookupQ, hb]

lemma reorder_converted : ∀ (sch : Schema) (fds : List FieldDecl)
    (attrs : List (String × QVal)), wfFields sch fds attrs = true →
    nodupStr (fds.map (fun fd => fd.fname)) = true →
    reorderFields fds (convertedNonSkip sch fds attrs) =
      eraseSkipFields sch fds attrs := by
  intro sch fds
  induction fds with
  | nil =>
    intro attrs h _
    cases attrs with
    | nil => rfl
    | cons a as => simp [wfFields] at h
  | cons fd rest ih =>
    intro attrs h hnd
    cases attrs with
    | nil => simp [wfFields] at h
    | cons a as =>
      obtain ⟨n, v⟩ := a
      simp only [wfFields, Bool.and_eq_true] at h
      obtain ⟨⟨hn, hwv⟩, hrest⟩ := h
      have hne : n = fd.fname := by simpa using hn
      have hnd2 := nodupStr_parts fd.fname (rest.map fun fd => fd.fname)
        (by simpa [List.map_cons] using hnd)
      cases hsk : fd.fskipSave with
      | true =>
        have hconv : convertedNonSkip sch (fd :: rest) ((n, v) :: as) =
            convertedNonSkip sch rest as := by
          simp [convertedNonSkip, hsk]
        have herase : eraseSkipFields sch (fd :: rest) ((n, v) :: as) =
            (n, fd.fdefault) :: eraseSkipFields sch rest as := by
          simp [eraseSkipFields, hsk]
        rw [hconv, herase, reorderFields_cons]
        rw [lookupQ_convertedNonSkip_none sch rest as fd.fname hrest hnd2.1]
        rw [ih as hrest hnd2.2]
        simp [hne]
      | false =>
        have hconv : convertedNonSkip sch (fd :: rest) ((n, v) :: as) =
            (n, eraseSkip sch v) :: convertedNonSkip sch rest as := by
          simp [convertedNonSkip, hsk]
        have herase : eraseSkipFields sch (fd :: rest) ((n, v) :: as) =
            (n, eraseSkip sch v) :: eraseSkipFields sch rest as := by
          simp [eraseSkipFields, hsk]
        rw [hconv, herase, reorderFields_cons]
        have hl : lookupQ ((n, eraseSkip sch v) ::
            convertedNonSkip sch rest as) fd.fname =
            some (eraseSkip sch v) := by
          simp [lookupQ, hne]
        rw [hl]
        have hirr : ∀ fd2 ∈ rest, fd2.fname ≠ n := by
          intro fd2 hfd2 hcon
          apply absurd ((containsStr_iff _ _).mpr ?_) (by
            rw [hnd2.1]; simp)
          rw [← hne, ← hcon]
          exact List.mem_map_of_mem _ hfd2
        rw [reorder_cons_irrelevant rest n (eraseSkip sch v) _ hirr]
        rw [ih as hrest hnd2.2]
        simp [hne]

lemma lookupEntry_toDictFields_dictTag : ∀ (sch : Schema) (te : FType)
    (es : List (String × QVal)), wfDict sch te es = true →
    lookupEntry (toDictFields sch [] es) "__class__" = none := by
  intro sch te es
  induction es with
  | nil => intro _; rfl
  | cons e rest ih =>
    intro h
    obtain ⟨n, v⟩ := e
    simp only [wfDict, Bool.and_eq_true] at h
    obtain ⟨⟨hn, _⟩, hrest⟩ := h
    have hn2 : (n == "__class__") = false := by simpa using hn
    simp [toDictFields, lookupEntry, hn2, ih hrest]

lemma instantiate_tagged (sch : Schema) (cls : String)
    (fds : List FieldDecl) (rest : List (String × PVal)) (t : FType)
    (hlk : lookupSch sch cls = some fds) :
    instantiate sch (PVal.pobj (("__class__", PVal.pstr cls) :: rest)) t =
      (match instFields sch fds (("__class__", PVal.pstr cls) :: rest) with
       | Except.ok built => Except.ok (QVal.comp cls (reorderFields fds built))
       | Except.error e => Except.error e) := by
  simp [instantiate, lookupEntry, hlk]

lemma instFields_skipTag (sch : Schema) (fds : List FieldDecl)
    (cls : String) (rest : List (String × PVal)) :
    instFields sch fds (("__class__", PVal.pstr cls) :: rest) =
      instFields sch fds rest := by
  simp [instFields]

lemma instantiate_notag_tdict (sch : Schema) (es : List (String × PVal))
    (te : FType) (h : lookupEntry es "__class__" = none) :
    instantiate sch (PVal.pobj es) (FType.tdict te) =
      (match instDict sch es te with
       | Except.ok es2 => Except.ok (QVal.vdict es2)
       | Except.error e => Except.error e) := by
  simp [instantiate, h]

lemma instantiate_notag_tany (sch : Schema) (es : List (String × PVal))
    (h : lookupEntry es "__class__" = none) :
    instantiate sch (PVal.pobj es) FType.tany =
      (match instDict sch es FType.tany with
       | Except.ok es2 => Except.ok (QVal.vdict es2)
       | Except.error e => Except.error e) := by
  simp [instantiate, h]

mutual

/-- Round trip on a well-formed value: instantiating its flattened
form recovers the value, with transient fields reset to defaults. -/
theorem rt_val (sch : Schema) (t : FType) (v : QVal)
    (hsch : schemaOk sch = true) (hwf : wfVal sch t v = true) :
    instantiate sch (toDict sch v) t = Except.ok (eraseSkip sch v) := by
  cases v with
  | vint n =>
    cases t <;> simp_all [wfVal, toDict, instantiate, eraseSkip]
  | vbool b =>
    cases t <;> simp_all [wfVal, toDict, instantiate, eraseSkip]
  | vnone =>
    cases t <;> simp [toDict, instantiate, eraseSkip]
  | vstr s =>
    by_cases hr : isReference s = true
    · simp [toDict, instantiate, hr, eraseSkip]
    · have hr2 : isReference s = false := by simpa using hr
      cases t <;> simp_all [wfVal, toDict, instantiate, eraseSkip, hr2]
  | comp cls attrs =>
    simp only [wfVal, Bool.and_eq_true] at hwf
    obtain ⟨hadm, hrest⟩ := hwf
    cases hlk : lookupSch sch cls with
    | none => rw [hlk] at hrest; simp at hrest
    | some fds =>
      rw [hlk] at hrest
      have hwff : wfFields sch fds attrs = true := hrest
      have hfok := schemaOk_lookup sch cls fds hsch hlk
      obtain ⟨hnd, hnocls⟩ := fieldsOk_parts fds hfok
      have hskipeq := skipNames_eq sch cls fds hlk hfok
      have hfind := findFd_self fds hnd
      have hflds := rt_fields sch fds fds attrs (skipNames sch cls) hsch
        hfind hnocls hskipeq hwff
      have htd : toDict sch (QVal.comp cls attrs) =
          PVal.pobj (("__class__", PVal.pstr cls) ::
            toDictFields sch (skipNames sch cls) attrs) := rfl
      rw [htd, instantiate_tagged sch cls fds _ t hlk, instFields_skipTag,
        hflds]
      show Except.ok (QVal.comp cls
          (reorderFields fds (convertedNonSkip sch fds attrs))) =
        Except.ok (eraseSkip sch (QVal.comp cls attrs))
      rw [reorder_converted sch fds attrs hwff hnd]
      have herase : eraseSkip sch (QVal.comp cls attrs) =
          QVal.comp cls (eraseSkipFields sch ((lookupSch sch cls).getD [])
            attrs) := rfl
      rw [herase, hlk]
      rfl
  | vdict es =>
    cases t with
    | tdict te =>
      have hwd : wfDict sch te es = true := hwf
      have htag := lookupEntry_toDictFields_dictTag sch te es hwd
      have hd := rt_dict sch te es hsch hwd
      have htd : toDict sch (QVal.vdict es) =
          PVal.pobj (toDictFields sch [] es) := rfl
      rw [htd, instantiate_notag_tdict sch _ te htag, hd]
      rfl
    | tany =>
      have hwd : wfDict sch FType.tany es = true := hwf
      have htag := lookupEntry_toDictFields_dictTag sch FType.tany es hwd
      have hd := rt_dict sch FType.tany es hsch hwd
      have htd : toDict sch (QVal.vdict es) =
          PVal.pobj (toDictFields sch [] es) := rfl
      rw [htd, instantiate_notag_tany sch _ htag, hd]
      rfl
    | tint => simp [wfVal] at hwf
    | tbool => simp [wfVal] at hwf
    | tstr => simp [wfVal] at hwf
    | tcomp cls => simp [wfVal] at hwf
    | tlist te => simp [wfVal] at hwf
  | vlist xs =>
    cases t with
    | tlist te =>
      have hwl : wfList sch te xs = true := hwf
      have hl := rt_list sch te xs hsch hwl
      have htd : toDict sch (QVal.vlist xs) =
          PVal.parr (toDictList sch xs) := rfl
      have hstep : instantiate sch (PVal.parr (toDictList sch xs))
          (FType.tlist te) =
          (match instList sch (toDictList sch xs) te with
           | Except.ok ys => Except.ok (QVal.vlist ys)
           | Except.error e => Except.error e) := by
        simp [instantiate]
      rw [htd, hstep, hl]
      rfl
    | tany =>
      have hwl : wfList sch FType.tany xs = true := hwf
      have hl := rt_list sch FType.tany xs hsch hwl
      have htd : toDict sch (QVal.vlist xs) =
          PVal.parr (toDictList sch xs) := rfl
      have hstep : instantiate sch (PVal.parr (toDictList sch xs))
          FType.tany =
          (match instList sch (toDictList sch xs) FType.tany with
           | Except.ok ys => Except.ok (QVal.vlist ys)
           | Except.error e => Except.error e) := by
        simp [instantiate]
      rw [htd, hstep, hl]
      rfl
    | tint => simp [wfVal] at hwf
    | tbool => simp [wfVal] at hwf
    | tstr => simp [wfVal] at hwf
    | tcomp cls => simp [wfVal] at hwf
    | tdict te => simp [wfVal] at hwf
termination_by structural v

/-- Round trip on the flattened non-transient attribute entries. -/
theorem rt_fields (sch : Schema) (fdsAll fds : List FieldDecl)
    (attrs : List (String × QVal)) (skips : List String)
    (hsch : schemaOk sch = true)
    (hfind : ∀ fd ∈ fds, findFd fdsAll fd.fname = some fd)
    (hcls : ∀ fd ∈ fds, (fd.fname == "__class__") = false)
    (hskipeq : ∀ fd ∈ fds, skips.contains fd.fname = fd.fskipSave)
    (hwf : wfFields sch fds attrs = true) :
    instFields sch fdsAll (toDictFields sch skips attrs) =
      Except.ok (convertedNonSkip sch fds attrs) := by
  cases fds with
  | nil =>
    cases attrs with
    | nil => rfl
    | cons a as => simp [wfFields] at hwf
  | cons fd rest =>
    cases attrs with
    | nil => simp [wfFields] at hwf
    | cons a as =>
      obtain ⟨n, v⟩ := a
      simp only [wfFields, Bool.and_eq_true] at hwf
      obtain ⟨⟨hn, hwv⟩, hwrest⟩ := hwf
      have hne : n = fd.fname := by simpa using hn
      have hmemh : fd ∈ fd :: rest := List.mem_cons_self fd rest
      have hrec := rt_fields sch fdsAll rest as skips hsch
        (fun fd2 h2 => hfind fd2 (List.mem_cons_of_mem _ h2))
        (fun fd2 h2 => hcls fd2 (List.mem_cons_of_mem _ h2))
        (fun fd2 h2 => hskipeq fd2 (List.mem_cons_of_mem _ h2)) hwrest
      cases hsk : fd.fskipSave with
      | true =>
        have hct : skips.contains n = true := by
          rw [hne, hskipeq fd hmemh, hsk]
        have hdrop : toDictFields sch skips ((n, v) :: as) =
            toDictFields sch skips as := by
          simp [toDictFields, (containsStr_iff _ _).mp hct]
        have hconv : convertedNonSkip sch (fd :: rest) ((n, v) :: as) =
            convertedNonSkip sch rest as := by
          simp [convertedNonSkip, hsk]
        rw [hdrop, hconv]
        exact hrec
      | false =>
        have hcf : skips.contains n = false := by
          rw [hne, hskipeq fd hmemh, hsk]
        have hkeep : toDictFields sch skips ((n, v) :: as) =
            (n, toDict sch v) :: toDictFields sch skips as := by
          simp [toDictFields, (containsStr_false _ _).mp hcf]
        have hconv : convertedNonSkip sch (fd :: rest) ((n, v) :: as) =
            (n, eraseSkip sch v) :: convertedNonSkip sch rest as := by
          simp [convertedNonSkip, hsk]
        have hntag : (n == "__class__") = false := by
          rw [hne]; exact hcls fd hmemh
        have hfd2 : findFd fdsAll n = some fd := by
          rw [hne]; exact hfind fd hmemh
        have hval := rt_val sch fd.ftype v hsch hwv
        rw [hkeep, hconv]
        simp only [instFields, hntag, Bool.false_eq_true, if_false, hfd2,
          hval, hrec]
termination_by structural attrs

/-- Round trip on dict container entries. -/
theorem rt_dict (sch : Schema) (te : FType) (es : List (String × QVal))
    (hsch : schemaOk sch = true) (hwf : wfDict sch te es = true) :
    instDict sch (toDictFields sch [] es) te =
      Except.ok (eraseSkipDict sch es) := by
  cases es with
  | nil => rfl
  | cons e rest =>
    obtain ⟨n, v⟩ := e
    simp only [wfDict, Bool.and_eq_true] at hwf
    obtain ⟨⟨hn, hwv⟩, hwrest⟩ := hwf
    have hval := rt_val sch te v hsch hwv
    have hrec := rt_dict sch te rest hsch hwrest
    have hkeep : toDictFields sch [] ((n, v) :: rest) =
        (n, toDict sch v) :: toDictFields sch [] rest := by
      simp [toDictFields]
    rw [hkeep]
    simp only [instDict, hval, hrec, eraseSkipDict]
termination_by structural es

/-- Round trip on list container elements. -/
theorem rt_list (sch : Schema) (te : FType) (xs : List QVal)
    (hsch : schemaOk sch = true) (hwf : wfList sch te xs = true) :
    instList sch (toDictList sch xs) te =
      Except.ok (eraseSkipList sch xs) := by
  cases xs with
  | nil => rfl
  | cons v rest =>
    simp only [wfList, Bool.and_eq_true] at hwf
    obtain ⟨hwv, hwrest⟩ := hwf
    have hval := rt_val sch te v hsch hwv
    have hrec := rt_list sch te rest hsch hwrest
    have hcons : toDictList sch (v :: rest) =
        toDict sch v :: toDictList sch rest := rfl
    rw [hcons]
    simp only [instList, hval, hrec, eraseSkipList]
termination_by structural xs

end

mutual

/-- With no transient fields declared anywhere, the save/load image of
a well-formed value is the value itself. -/
theorem eraseSkipId_val (sch : Schema) (t : FType) (v : QVal)
    (hns : noSkip sch = true) (hwf : wfVal sch t v = true) :
    eraseSkip sch v = v := by
  cases v with
  | vint n => rfl
  | vbool b => rfl
  | vstr s => rfl
  | vnone => rfl
  | comp cls attrs =>
    simp only [wfVal, Bool.and_eq_true] at hwf
    obtain ⟨_, hrest⟩ := hwf
    cases hlk : lookupSch sch cls with
    | none => rw [hlk] at hrest; simp at hrest
    | some fds =>
      rw [hlk] at hrest
      have hwff : wfFields sch fds attrs = true := hrest
      have hnsf := noSkip_lookup sch cls fds hns hlk
      have h := eraseSkipId_fields sch fds attrs hns hnsf hwff
      show QVal.comp cls (eraseSkipFields sch ((lookupSch sch cls).getD [])
        attrs) = QVal.comp cls attrs
      rw [hlk]
      show QVal.comp cls (eraseSkipFields sch fds attrs) = QVal.comp cls attrs
      rw [h]
  | vdict es =>
    have h : eraseSkipDict sch es = es := by
      cases t with
      | tdict te => exact eraseSkipId_dict sch te es hns hwf
      | tany => exact eraseSkipId_dict sch FType.tany es hns hwf
      | tint => simp [wfVal] at hwf
      | tbool => simp [wfVal] at hwf
      | tstr => simp [wfVal] at hwf
      | tcomp cls => simp [wfVal] at hwf
      | tlist te => simp [wfVal] at hwf
    show QVal.vdict (eraseSkipDict sch es) = QVal.vdict es
    rw [h]
  | vlist xs =>
    have h : eraseSkipList sch xs = xs := by
      cases t with
      | tlist te => exact eraseSkipId_list sch te xs hns hwf
      | tany => exact eraseSkipId_list sch FType.tany xs hns hwf
      | tint => simp [wfVal] at hwf
      | tbool => simp [wfVal] at hwf
      | tstr => simp [wfVal] at hwf
      | tcomp cls => simp [wfVal] at hwf
      | tdict te => simp [wfVal] at hwf
    show QVal.vlist (eraseSkipList sch xs) = QVal.vlist xs
    rw [h]
termination_by structural v

/-- Field entries are unchanged when no field is transient. -/
theorem eraseSkipId_fields (sch : Schema) (fds : List FieldDecl)
    (attrs : List (String × QVal)) (hns : noSkip sch = true)
    (hnsf : ∀ fd ∈ fds, fd.fskipSave = false)
    (hwf : wfFields sch fds attrs = true) :
    eraseSkipFields sch fds attrs = attrs := by
  cases fds with
  | nil =>
    cases attrs with
    | nil => rfl
    | cons a as => simp [wfFields] at hwf
  | cons fd rest =>
    cases attrs with
    | nil => simp [wfFields] at hwf
    | cons a as =>
      obtain ⟨n, v⟩ := a
      simp only [wfFields, Bool.and_eq_true] at hwf
      obtain ⟨⟨hn, hwv⟩, hwrest⟩ := hwf
      have hsk := hnsf fd (List.mem_cons_self fd rest)
      have hval := eraseSkipId_val sch fd.ftype v hns hwv
      have hrec := eraseSkipId_fields sch rest as hns
        (fun fd2 h2 => hnsf fd2 (List.mem_cons_of_mem _ h2)) hwrest
      simp [eraseSkipFields, hsk, hval, hrec]
termination_by structural attrs

/-- Dict entries are unchanged when no field is transient. -/
theorem eraseSkipId_dict (sch : Schema) (te : FType)
    (es : List (String × QVal)) (hns : noSkip sch = true)
    (hwf : wfDict sch te es = true) : eraseSkipDict sch es = es := by
  cases es with
  | nil => rfl
  | cons e rest =>
    obtain ⟨n, v⟩ := e
    simp only [wfDict, Bool.and_eq_true] at hwf
    obtain ⟨⟨_, hwv⟩, hwrest⟩ := hwf
    simp [eraseSkipDict, eraseSkipId_val sch te v hns hwv,
      eraseSkipId_dict sch te rest hns hwrest]
termination_by structural es

/-- List elements are unchanged when no field is transient. -/
theorem eraseSkipId_list (sch : Schema) (te : FType) (xs : List QVal)
    (hns : noSkip sch = true) (hwf : wfList sch te xs = true) :
    eraseSkipList sch xs = xs := by
  cases xs with
  | nil => rfl
  | cons v rest =>
    simp only [wfList, Bool.and_eq_true] at hwf
    obtain ⟨hwv, hwrest⟩ := hwf
    simp [eraseSkipList, eraseSkipId_val sch te v hns hwv,
      eraseSkipId_list sch te rest hns hwrest]
termination_by structural xs

end

lemma lookupEntry_none_of_not_mem : ∀ (es : List (String × PVal))
    (x : String), x ∉ es.map Prod.fst → lookupEntry es x = none := by
  intro es x h
  induction es with
  | nil => rfl
  | cons e rest ih =>
    obtain ⟨n, v⟩ := e
    simp only [List.map_cons, List.mem_cons, not_or] at h
    have hb : (n == x) = false := by
      simp only [beq_eq_false_iff_ne]
      exact fun hc => h.1 hc.symm
    simp only [lookupEntry, hb, if_false, Bool.false_eq_true]
    exact ih h.2

lemma lookupEntry_filter_none : ∀ (es : List (String × PVal))
    (q : String × PVal → Bool) (x : String), x ∉ es.map Prod.fst →
    lookupEntry (es.filter q) x = none := by
  intro es q x h
  induction es with
  | nil => rfl
  | cons e rest ih =>
    obtain ⟨n, v⟩ := e
    simp only [List.map_cons, List.mem_cons, not_or] at h
    have hb : (n == x) = false := by
      simp only [beq_eq_false_iff_ne]
      exact fun hc => h.1 hc.symm
    by_cases hq : q (n, v) = true
    · simp only [List.filter_cons, hq, if_true, lookupEntry, hb,
        Bool.false_eq_true, if_false]
      exact ih h.2
    · have hq2 : q (n, v) = false := by simpa using hq
      simp only [List.filter_cons, hq2, Bool.false_eq_true, if_false]
      exact ih h.2

lemma lookupEntry_append : ∀ (a b : List (String × PVal)) (x : String),
    lookupEntry (a ++ b) x =
      (match lookupEntry a x with
       | some v => some v
       | none => lookupEntry b x) := by
  intro a b x
  induction a with
  | nil => rfl
  | cons e rest ih =>
    obtain ⟨n, v⟩ := e
    by_cases hb : (n == x) = true
    · simp [lookupEntry, hb]
    · simp only [List.cons_append, lookupEntry, hb, Bool.false_eq_true,
        if_false]
      exact ih

lemma lookupEntry_split : ∀ (es : List (String × PVal))
    (q : String × PVal → Bool) (x : String),
    nodupStr (es.map Prod.fst) = true →
    lookupEntry (es.filter (fun e => !(q e)) ++ es.filter q) x =
      lookupEntry es x := by
  intro es q
  induction es with
  | nil => intro x _; rfl
  | cons e rest ih =>
    intro x hnd
    obtain ⟨n, v⟩ := e
    have hnd2 := nodupStr_parts n (rest.map Prod.fst)
      (by simpa [List.map_cons] using hnd)
    by_cases hq : q (n, v) = true
    · have hf1 : ((n, v) :: rest).filter (fun e => !(q e)) =
          rest.filter (fun e => !(q e)) := by
        simp [List.filter_cons, hq]
      have hf2 : ((n, v) :: rest).filter q = (n, v) :: rest.filter q := by
        simp [List.filter_cons, hq]
      rw [hf1, hf2]
      by_cases hx : (n == x) = true
      · have hxe : n = x := by simpa using hx
        subst hxe
        have hnone : lookupEntry (rest.filter (fun e => !(q e))) n = none :=
          lookupEntry_filter_none rest _ n
            ((containsStr_false _ _).mp hnd2.1)
        rw [lookupEntry_append, hnone]
        simp [lookupEntry]
      · rw [lookupEntry_append]
        have hrec := ih x hnd2.2
        rw [lookupEntry_append] at hrec
        cases hfst : lookupEntry (rest.filter (fun e => !(q e))) x with
        | some w =>
          rw [hfst] at hrec
          simp only [lookupEntry, hx, Bool.false_eq_true, if_false]
          exact hrec
        | none =>
          rw [hfst] at hrec
          simp only [lookupEntry, hx, Bool.false_eq_true, if_false]
          exact hrec
    · have hq2 : q (n, v) = false := by simpa using hq
      have hf1 : ((n, v) :: rest).filter (fun e => !(q e)) =
          (n, v) :: rest.filter (fun e => !(q e)) := by
        simp [List.filter_cons, hq2]
      have hf2 : ((n, v) :: rest).filter q = rest.filter q := by
        simp [List.filter_cons, hq2]
      rw [hf1, hf2, List.cons_append]
      by_cases hx : (n == x) = true
      · simp [lookupEntry, hx]
      · simp only [lookupEntry, hx, Bool.false_eq_true, if_false]
        exact ih x hnd2.2

lemma toDictFields_keys : ∀ (sch : Schema) (es : List (String × QVal)),
    (toDictFields sch [] es).map Prod.fst = es.map Prod.fst := by
  intro sch es
  induction es with
  | nil => rfl
  | cons e rest ih =>
    obtain ⟨n, v⟩ := e
    simp [toDictFields, ih]

lemma instFields_entry_ok : ∀ (sch : Schema) (fds : List FieldDecl)
    (pes : List (String × PVal)) (out : List (String × QVal)),
    instFields sch fds pes = Except.ok out →
    ∀ e ∈ pes, (e.1 == "__class__") = true ∨
      ∃ fd v, findFd fds e.1 = some fd ∧
        instantiate sch e.2 fd.ftype = Except.ok v := by
  intro sch fds pes
  induction pes with
  | nil => intro out _ e he; simp at he
  | cons ep rest ih =>
    intro out h e he
    obtain ⟨n, pv⟩ := ep
    by_cases hn : (n == "__class__") = true
    · have h2 : instFields sch fds rest = Except.ok out := by
        simpa [instFields, hn] using h
      rcases List.mem_cons.mp he with heq | hmem
      · subst heq; exact Or.inl hn
      · exact ih out h2 e hmem
    · cases hfd : findFd fds n with
      | none => exfalso; simp [instFields, hn, hfd] at h
      | some fd =>
        cases hin : instantiate sch pv fd.ftype with
        | error e2 => exfalso; simp [instFields, hn, hfd, hin] at h
        | ok v =>
          cases hrest : instFields sch fds rest with
          | error e2 => exfalso; simp [instFields, hn, hfd, hin, hrest] at h
          | ok out2 =>
            rcases List.mem_cons.mp he with heq | hmem
            · subst heq; exact Or.inr ⟨fd, v, hfd, hin⟩
            · exact ih out2 hrest e hmem

lemma instFields_ok_of_entry_ok : ∀ (sch : Schema) (fds : List FieldDecl)
    (pes : List (String × PVal)),
    (∀ e ∈ pes, (e.1 == "__class__") = true ∨
      ∃ fd v, findFd fds e.1 = some fd ∧
        instantiate sch e.2 fd.ftype = Except.ok v) →
    ∃ out, instFields sch fds pes = Except.ok out := by
  intro sch fds pes
  induction pes with
  | nil => intro _; exact ⟨[], rfl⟩
  | cons ep rest ih =>
    intro hok
    obtain ⟨n, pv⟩ := ep
    obtain ⟨out2, h2⟩ := ih (fun e he => hok e (List.mem_cons_of_mem _ he))
    by_cases hn : (n == "__class__") = true
    · exact ⟨out2, by simp [instFields, hn, h2]⟩
    · rcases hok (n, pv) (List.mem_cons_self _ _) with hl | ⟨fd, v, hfd, hin⟩
      · exact absurd hl hn
      · exact ⟨(n, v) :: out2, by simp [instFields, hn, hfd, hin, h2]⟩

lemma instFields_lookup : ∀ (sch : Schema) (fds : List FieldDecl)
    (pes : List (String × PVal)) (out : List (String × QVal)),
    instFields sch fds pes = Except.ok out →
    ∀ (x : String) (fd : FieldDecl), (x == "__class__") = false →
    findFd fds x = some fd →
    ((∀ pv, lookupEntry pes x = some pv →
        ∃ v, instantiate sch pv fd.ftype = Except.ok v ∧
          lookupQ out x = some v) ∧
     (lookupEntry pes x = none → lookupQ out x = none)) := by
  intro sch fds pes
  induction pes with
  | nil =>
    intro out h x fd _ _
    have hout : out = [] := by
      have h2 : Except.ok ([] : List (String × QVal)) = Except.ok out := h
      simpa using h2
    subst hout
    exact ⟨fun pv hpv => by simp [lookupEntry] at hpv, fun _ => rfl⟩
  | cons ep rest ih =>
    intro out h x fd hx hfd
    obtain ⟨n, pv0⟩ := ep
    by_cases hn : (n == "__class__") = true
    · have h2 : instFields sch fds rest = Except.ok out := by
        simpa [instFields, hn] using h
      have hxn : (n == x) = false := by
        have hneq : n = "__class__" := by simpa using hn
        subst hneq
        by_contra hcon
        simp only [Bool.not_eq_false, beq_iff_eq] at hcon
        rw [← hcon] at hx
        simp at hx
      constructor
      · intro pv hpv
        have hpv2 : lookupEntry rest x = some pv := by
          simpa [lookupEntry, hxn] using hpv
        exact (ih out h2 x fd hx hfd).1 pv hpv2
      · intro hnone
        have h2n : lookupEntry rest x = none := by
          simpa [lookupEntry, hxn] using hnone
        exact (ih out h2 x fd hx hfd).2 h2n
    · cases hfd0 : findFd fds n with
      | none => exfalso; simp [instFields, hn, hfd0] at h
      | some fdn =>
        cases hin : instantiate sch pv0 fdn.ftype with
        | error e2 => exfalso; simp [instFields, hn, hfd0, hin] at h
        | ok v0 =>
          cases hrest : instFields sch fds rest with
          | error e2 =>
            exfalso; simp [instFields, hn, hfd0, hin, hrest] at h
          | ok out2 =>
            have hout : out = (n, v0) :: out2 := by
              have h2 : (Except.ok ((n, v0) :: out2) :
                  Except IErr (List (String × QVal))) = Except.ok out := by
                simpa [instFields, hn, hfd0, hin, hrest] using h
              have h3 : (n, v0) :: out2 = out := by simpa using h2
              exact h3.symm
            subst hout
            by_cases hxeq : (n == x) = true
            · have hnx : n = x := by simpa using hxeq
              subst hnx
              have hfdeq : fdn = fd := by
                rw [hfd] at hfd0
                simpa using hfd0.symm
              subst hfdeq
              constructor
              · intro pv hpv
                have hpveq : pv0 = pv := by
                  simpa [lookupEntry] using hpv
                subst hpveq
                exact ⟨v0, hin, by simp [lookupQ]⟩
              · intro hnone
                exfalso
                simp [lookupEntry] at hnone
            · constructor
              · intro pv hpv
                have hpv2 : lookupEntry rest x = some pv := by
                  simpa [lookupEntry, hxeq] using hpv
                obtain ⟨v, hv1, hv2⟩ := (ih out2 hrest x fd hx hfd).1 pv hpv2
                exact ⟨v, hv1, by simpa [lookupQ, hxeq] using hv2⟩
              · intro hnone
                have h2n : lookupEntry rest x = none := by
                  simpa [lookupEntry, hxeq] using hnone
                have := (ih out2 hrest x fd hx hfd).2 h2n
                simpa [lookupQ, hxeq] using this

lemma instantiate_tagged2 (sch : Schema) (es : List (String × PVal))
    (cls : String) (fds : List FieldDecl) (t : FType)
    (htag : lookupEntry es "__class__" = some (PVal.pstr cls))
    (hlk : lookupSch sch cls = some fds) :
    instantiate sch (PVal.pobj es) t =
      (match instFields sch fds es with
       | Except.ok built => Except.ok (QVal.comp cls (reorderFields fds built))
       | Except.error e => Except.error e) := by
  simp [instantiate, htag, hlk]

lemma instantiate_split_merge
    (sch : Schema) (pes : List (String × PVal)) (cls2 : String)
    (fds : List FieldDecl) (names : List String) (t : FType)
    (out : List (String × QVal))
    (htag : lookupEntry pes "__class__" = some (PVal.pstr cls2))
    (hcls : lookupSch sch cls2 = some fds)
    (hnocls : ∀ fd ∈ fds, (fd.fname == "__class__") = false)
    (hnd : nodupStr (pes.map Prod.fst) = true)
    (hrun : instFields sch fds pes = Except.ok out) :
    instantiate sch
        (PVal.pobj (pes.filter (fun e => !(names.contains e.1)) ++
          pes.filter (fun e => names.contains e.1))) t =
      Except.ok (QVal.comp cls2 (reorderFields fds out)) := by
  have hsplit := lookupEntry_split pes (fun e => names.contains e.1)
  have htagM : lookupEntry (pes.filter (fun e => !(names.contains e.1)) ++
      pes.filter (fun e => names.contains e.1)) "__class__" =
      some (PVal.pstr cls2) := by
    rw [hsplit "__class__" hnd]
    exact htag
  have hmemM : ∀ e ∈ pes.filter (fun e => !(names.contains e.1)) ++
      pes.filter (fun e => names.contains e.1), e ∈ pes := by
    intro e he
    rcases List.mem_append.mp he with h1 | h1
    · exact (List.mem_filter.mp h1).1
    · exact (List.mem_filter.mp h1).1
  have hok := instFields_entry_ok sch fds pes out hrun
  obtain ⟨outM, hrunM⟩ := instFields_ok_of_entry_ok sch fds _
    (fun e he => hok e (hmemM e he))
  have hre : reorderFields fds outM = reorderFields fds out := by
    unfold reorderFields
    apply List.map_congr_left
    intro fd hfd
    obtain ⟨fd0, hfd0⟩ := findFd_isSome_of_mem fds fd hfd
    have hxcls : (fd.fname == "__class__") = false := hnocls fd hfd
    have hlkM := instFields_lookup sch fds _ outM hrunM fd.fname fd0
      hxcls hfd0
    have hlk1 := instFields_lookup sch fds pes out hrun fd.fname fd0
      hxcls hfd0
    have hsame := hsplit fd.fname hnd
    have hlq : lookupQ outM fd.fname = lookupQ out fd.fname := by
      cases hle : lookupEntry pes fd.fname with
      | none =>
        have ha := hlk1.2 hle
        have hb := hlkM.2 (by rw [hsame]; exact hle)
        rw [ha, hb]
      | some pv =>
        obtain ⟨v, hv1, hv2⟩ := hlk1.1 pv hle
        obtain ⟨v2, hv12, hv22⟩ := hlkM.1 pv (by rw [hsame]; exact hle)
        have hveq : v2 = v := by
          rw [hv1] at hv12
          simpa using hv12.symm
        rw [hv2, hv22, hveq]
    rw [hlq]
  rw [instantiate_tagged2 sch _ cls2 fds t htagM hcls, hrunM]
  show Except.ok (QVal.comp cls2 (reorderFields fds outM)) =
    Except.ok (QVal.comp cls2 (reorderFields fds out))
  rw [hre]

mutual

/-- The save/load image of a well-formed value agrees with the value
on every non-transient declared field. -/
theorem agree_eraseSkip_val (sch : Schema) (t : FType) (v : QVal)
    (hwf : wfVal sch t v = true) :
    agreeNonTransient sch v (eraseSkip sch v) = true := by
  cases v with
  | vint n => simp [eraseSkip, agreeNonTransient]
  | vbool b => simp [eraseSkip, agreeNonTransient]
  | vstr s => simp [eraseSkip, agreeNonTransient]
  | vnone => rfl
  | comp cls attrs =>
    simp only [wfVal, Bool.and_eq_true] at hwf
    obtain ⟨_, hrest⟩ := hwf
    cases hlk : lookupSch sch cls with
    | none => rw [hlk] at hrest; simp at hrest
    | some fds =>
      rw [hlk] at hrest
      have hwff : wfFields sch fds attrs = true := hrest
      have h := agree_eraseSkip_fields sch fds attrs hwff
      have he : eraseSkip sch (QVal.comp cls attrs) =
          QVal.comp cls (eraseSkipFields sch fds attrs) := by
        show QVal.comp cls (eraseSkipFields sch ((lookupSch sch cls).getD [])
          attrs) = QVal.comp cls (eraseSkipFields sch fds attrs)
        rw [hlk]
        rfl
      rw [he]
      have hshow : agreeNonTransient sch (QVal.comp cls attrs)
          (QVal.comp cls (eraseSkipFields sch fds attrs)) =
          ((cls == cls) &&
            (match lookupSch sch cls with
             | some fds2 =>
               agreeFields sch fds2 attrs (eraseSkipFields sch fds attrs)
             | none => false)) := rfl
      rw [hshow, hlk]
      simp [h]
  | vdict es =>
    have h : agreeDict sch es (eraseSkipDict sch es) = true := by
      cases t with
      | tdict te => exact agree_eraseSkip_dict sch te es hwf
      | tany => exact agree_eraseSkip_dict sch FType.tany es hwf
      | tint => simp [wfVal] at hwf
      | tbool => simp [wfVal] at hwf
      | tstr => simp [wfVal] at hwf
      | tcomp cls => simp [wfVal] at hwf
      | tlist te => simp [wfVal] at hwf
    exact h
  | vlist xs =>
    have h : agreeList sch xs (eraseSkipList sch xs) = true := by
      cases t with
      | tlist te => exact agree_eraseSkip_list sch te xs hwf
      | tany => exact agree_eraseSkip_list sch FType.tany xs hwf
      | tint => simp [wfVal] at hwf
      | tbool => simp [wfVal] at hwf
      | tstr => simp [wfVal] at hwf
      | tcomp cls => simp [wfVal] at hwf
      | tdict te => simp [wfVal] at hwf
    exact h
termination_by structural v

/-- Fieldwise agreement with the save/load image. -/
theorem agree_eraseSkip_fields (sch : Schema) (fds : List FieldDecl)
    (attrs : List (String × QVal)) (hwf : wfFields sch fds attrs = true) :
    agreeFields sch fds attrs (eraseSkipFields sch fds attrs) = true := by
  cases fds with
  | nil =>
    cases attrs with
    | nil => rfl
    | cons a as => simp [wfFields] at hwf
  | cons fd rest =>
    cases attrs with
    | nil => simp [wfFields] at hwf
    | cons a as =>
      obtain ⟨n, v⟩ := a
      simp only [wfFields, Bool.and_eq_true] at hwf
      obtain ⟨⟨hn, hwv⟩, hwrest⟩ := hwf
      have hrec := agree_eraseSkip_fields sch rest as hwrest
      cases hsk : fd.fskipSave with
      | true =>
        have he : eraseSkipFields sch (fd :: rest) ((n, v) :: as) =
            (n, fd.fdefault) :: eraseSkipFields sch rest as := by
          simp [eraseSkipFields, hsk]
        rw [he]
        simp [agreeFields, hsk, hrec]
      | false =>
        have he : eraseSkipFields sch (fd :: rest) ((n, v) :: as) =
            (n, eraseSkip sch v) :: eraseSkipFields sch rest as := by
          simp [eraseSkipFields, hsk]
        rw [he]
        have hv := agree_eraseSkip_val sch fd.ftype v hwv
        simp [agreeFields, hsk, hv, hrec]
termination_by structural attrs

/-- Dict entries agree with their save/load image. -/
theorem agree_eraseSkip_dict (sch : Schema) (te : FType)
    (es : List (String × QVal)) (hwf : wfDict sch te es = true) :
    agreeDict sch es (eraseSkipDict sch es) = true := by
  cases es with
  | nil => rfl
  | cons e rest =>
    obtain ⟨n, v⟩ := e
    simp only [wfDict, Bool.and_eq_true] at hwf
    obtain ⟨⟨_, hwv⟩, hwrest⟩ := hwf
    have hv := agree_eraseSkip_val sch te v hwv
    have hrec := agree_eraseSkip_dict sch te rest hwrest
    simp [eraseSkipDict, agreeDict, hv, hrec]
termination_by structural es

/-- List elements agree with their save/load image. -/
theorem agree_eraseSkip_list (sch : Schema) (te : FType) (xs : List QVal)
    (hwf : wfList sch te xs = true) :
    agreeList sch xs (eraseSkipList sch xs) = true := by
  cases xs with
  | nil => rfl
  | cons v rest =>
    simp only [wfList, Bool.and_eq_true] at hwf
    obtain ⟨hwv, hwrest⟩ := hwf
    have hv := agree_eraseSkip_val sch te v hwv
    have hrec := agree_eraseSkip_list sch te rest hwrest
    simp [eraseSkipList, agreeList, hv, hrec]
termination_by structural xs

end

lemma toDictFields_keys_filter : ∀ (sch : Schema) (skips : List String)
    (es : List (String × QVal)),
    (toDictFields sch skips es).map Prod.fst =
      (es.map Prod.fst).filter (fun n => !(skips.contains n)) := by
  intro sch skips es
  induction es with
  | nil => rfl
  | cons e rest ih =>
    obtain ⟨n, v⟩ := e
    by_cases hc : n ∈ skips
    · simp [toDictFields, hc, ih]
    · simp [toDictFields, hc, ih]

lemma nodupStr_filter : ∀ (ns : List String) (p : String → Bool),
    nodupStr ns = true → nodupStr (ns.filter p) = true := by
  intro ns p
  induction ns with
  | nil => intro _; rfl
  | cons n rest ih =>
    intro h
    obtain ⟨h1, h2⟩ := nodupStr_parts n rest h
    by_cases hp : p n = true
    · have hf : (n :: rest).filter p = n :: rest.filter p := by
        simp [List.filter_cons, hp]
      rw [hf]
      have hc : (rest.filter p).contains n = false := by
        rw [containsStr_false]
        intro hmem
        exact (containsStr_false _ _).mp h1 (List.mem_filter.mp hmem).1
      show (!((rest.filter p).contains n) && nodupStr (rest.filter p)) = true
      rw [hc, ih h2]
      rfl
    · have hp2 : p n = false := by simpa using hp
      have hf : (n :: rest).filter p = rest.filter p := by
        simp [List.filter_cons, hp2]
      rw [hf]
      exact ih h2

/-- C3: Load after save reproduces the tree: for every well-formed
tree, instantiating the flattened form with the tree's own type
succeeds and yields the tree's save/load image `eraseSkip`, which is
structurally equivalent to the original on every non-transient
declared field and carries the same concrete class at every position;
reference strings are carried verbatim, never resolved at save time;
the same holds for a multi-file save with a content mapping followed
by a merged folder load; and when the schema declares no transient
field at all, the reproduction is exact. -/
theorem c3_flatten_instantiate_roundtrip
    (sch : Schema) (cls : String) (attrs : List (String × QVal))
    (mainName auxName : String) (names : List String)
    (hsch : schemaOk sch = true)
    (hwf : wfVal sch (FType.tcomp cls) (QVal.comp cls attrs) = true) :
    instantiate sch (toDict sch (QVal.comp cls attrs)) (FType.tcomp cls) =
      Except.ok (eraseSkip sch (QVal.comp cls attrs)) ∧
    agreeNonTransient sch (QVal.comp cls attrs)
      (eraseSkip sch (QVal.comp cls attrs)) = true ∧
    (saveSplit (toDict sch (QVal.comp cls attrs)) mainName auxName
        names).map
      (fun docs => instantiate sch (mergeDocs docs) (FType.tcomp cls)) =
      some (Except.ok (eraseSkip sch (QVal.comp cls attrs))) ∧
    (noSkip sch = true →
       eraseSkip sch (QVal.comp cls attrs) = QVal.comp cls attrs) ∧
    (∀ s : String, isReference s = true →
       toDict sch (QVal.vstr s) = PVal.pstr s) := by
  refine ⟨rt_val sch (FType.tcomp cls) (QVal.comp cls attrs) hsch hwf,
    agree_eraseSkip_val sch (FType.tcomp cls) (QVal.comp cls attrs) hwf,
    ?_,
    fun hns => eraseSkipId_val sch (FType.tcomp cls) (QVal.comp cls attrs)
      hns hwf,
    fun s _ => rfl⟩
  have hwf2 := hwf
  simp only [wfVal, Bool.and_eq_true] at hwf2
  obtain ⟨hadm, hrest⟩ := hwf2
  cases hlk : lookupSch sch cls with
  | none => rw [hlk] at hrest; simp at hrest
  | some fds =>
    rw [hlk] at hrest
    have hwff : wfFields sch fds attrs = true := hrest
    have hfok := schemaOk_lookup sch cls fds hsch hlk
    obtain ⟨hnd, hnocls⟩ := fieldsOk_parts fds hfok
    have hfind := findFd_self fds hnd
    have hskipeq := skipNames_eq sch cls fds hlk hfok
    have hflds := rt_fields sch fds fds attrs (skipNames sch cls) hsch
      hfind hnocls hskipeq hwff
    have hrun : instFields sch fds (("__class__", PVal.pstr cls) ::
        toDictFields sch (skipNames sch cls) attrs) =
        Except.ok (convertedNonSkip sch fds attrs) := by
      rw [instFields_skipTag]; exact hflds
    have hkeys : ((("__class__", PVal.pstr cls) ::
        toDictFields sch (skipNames sch cls) attrs).map Prod.fst) =
        "__class__" :: (fds.map (fun fd => fd.fname)).filter
          (fun n => !((skipNames sch cls).contains n)) := by
      rw [List.map_cons, toDictFields_keys_filter,
        wfFields_names sch fds attrs hwff]
    have hc : (fds.map (fun fd => fd.fname)).contains "__class__" =
        false := by
      rw [containsStr_false]
      intro hmem
      obtain ⟨fd2, hfd2, hname⟩ := List.mem_map.mp hmem
      have hx := hnocls fd2 hfd2
      simp [hname] at hx
    have hndk : nodupStr ((("__class__", PVal.pstr cls) ::
        toDictFields sch (skipNames sch cls) attrs).map Prod.fst) = true := by
      rw [hkeys]
      have hcf : ((fds.map (fun fd => fd.fname)).filter
          (fun n => !((skipNames sch cls).contains n))).contains
          "__class__" = false := by
        rw [containsStr_false]
        intro hmem
        exact (containsStr_false _ _).mp hc (List.mem_filter.mp hmem).1
      show (!(((fds.map (fun fd => fd.fname)).filter
          (fun n => !((skipNames sch cls).contains n))).contains
          "__class__") &&
        nodupStr ((fds.map (fun fd => fd.fname)).filter
          (fun n => !((skipNames sch cls).contains n)))) = true
      rw [hcf, nodupStr_filter _ _ hnd]
      rfl
    have htag : lookupEntry (("__class__", PVal.pstr cls) ::
        toDictFields sch (skipNames sch cls) attrs) "__class__" =
        some (PVal.pstr cls) := by simp [lookupEntry]
    have hmain := instantiate_split_merge sch
      (("__class__", PVal.pstr cls) ::
        toDictFields sch (skipNames sch cls) attrs)
      cls fds names (FType.tcomp cls) (convertedNonSkip sch fds attrs)
      htag hlk hnocls hndk hrun
    have herase : eraseSkip sch (QVal.comp cls attrs) =
        QVal.comp cls (eraseSkipFields sch fds attrs) := by
      show QVal.comp cls (eraseSkipFields sch ((lookupSch sch cls).getD [])
        attrs) = QVal.comp cls (eraseSkipFields sch fds attrs)
      rw [hlk]
      rfl
    have hfinal : QVal.comp cls
        (reorderFields fds (convertedNonSkip sch fds attrs)) =
        eraseSkip sch (QVal.comp cls attrs) := by
      rw [reorder_converted sch fds attrs hwff hnd, herase]
    have hsplit2 : saveSplit (toDict sch (QVal.comp cls attrs)) mainName
        auxName names =
        some [(mainName, PVal.pobj ((("__class__", PVal.pstr cls) ::
            toDictFields sch (skipNames sch cls) attrs).filter
            (fun e => !(names.contains e.1)))),
          (auxName, PVal.pobj ((("__class__", PVal.pstr cls) ::
            toDictFields sch (skipNames sch cls) attrs).filter
            (fun e => names.contains e.1)))] := rfl
    rw [hsplit2]
    rw [show ∀ (f : List (String × PVal) → Except IErr QVal)
        (l : List (String × PVal)),
        Option.map (fun docs => f docs) (some l) = some (f l) from
      fun _ _ => rfl]
    have hmerge : mergeDocs [(mainName, PVal.pobj ((("__class__",
        PVal.pstr cls) :: toDictFields sch (skipNames sch cls)
        attrs).filter (fun e => !(names.contains e.1)))),
        (auxName, PVal.pobj ((("__class__", PVal.pstr cls) ::
          toDictFields sch (skipNames sch cls) attrs).filter
          (fun e => names.contains e.1)))] =
        PVal.pobj ((("__class__", PVal.pstr cls) ::
          toDictFields sch (skipNames sch cls) attrs).filter
          (fun e => !(names.contains e.1)) ++
          (("__class__", PVal.pstr cls) ::
          toDictFields sch (skipNames sch cls) attrs).filter
          (fun e => names.contains e.1)) := by
      simp [mergeDocs]
    rw [hmerge, hmain, hfinal]

/-- C3 witness: two concrete applications - the documented
`OuterComponent` schema with a transient `hidden` component (the round
trip resets only the transient field, agreeing on every non-transient
one), and a transient-free schema with two component subclasses nested
in a dict container, reproduced exactly, including through a
`content_mapping` split save and merged folder load. -/
theorem c3_flatten_instantiate_roundtrip_witness :
    instantiate
        [("OuterComponent",
          [⟨"visible", FType.tint, false, QVal.vint 2⟩,
           ⟨"hidden", FType.tcomp "InnerComponent", true, QVal.vnone⟩]),
         ("InnerComponent",
          [⟨"inner_value", FType.tint, false, QVal.vint 1⟩])]
        (toDict
          [("OuterComponent",
            [⟨"visible", FType.tint, false, QVal.vint 2⟩,
             ⟨"hidden", FType.tcomp "InnerComponent", true, QVal.vnone⟩]),
           ("InnerComponent",
            [⟨"inner_value", FType.tint, false, QVal.vint 1⟩])]
          (QVal.comp "OuterComponent"
            [("visible", QVal.vint 2),
             ("hidden", QVal.comp "InnerComponent"
               [("inner_value", QVal.vint 1)])]))
        (FType.tcomp "OuterComponent") =
      Except.ok (QVal.comp "OuterComponent"
        [("visible", QVal.vint 2), ("hidden", QVal.vnone)]) ∧
    agreeNonTransient
        [("OuterComponent",
          [⟨"visible", FType.tint, false, QVal.vint 2⟩,
           ⟨"hidden", FType.tcomp "InnerComponent", true, QVal.vnone⟩]),
         ("InnerComponent",
          [⟨"inner_value", FType.tint, false, QVal.vint 1⟩])]
        (QVal.comp "OuterComponent"
          [("visible", QVal.vint 2),
           ("hidden", QVal.comp "InnerComponent"
             [("inner_value", QVal.vint 1)])])
        (QVal.comp "OuterComponent"
          [("visible", QVal.vint 2), ("hidden", QVal.vnone)]) = true ∧
    instantiate
        [("Root",
          [⟨"wiring", FType.tany, false, QVal.vnone⟩,
           ⟨"qubits", FType.tdict FType.tany, false, QVal.vnone⟩,
           ⟨"f", FType.tint, false, QVal.vnone⟩]),
         ("TransmonA",
          [⟨"x", FType.tint, false, QVal.vnone⟩,
           ⟨"chan", FType.tcomp "Chan", false, QVal.vnone⟩]),
         ("TransmonB", [⟨"y", FType.tstr, false, QVal.vnone⟩]),
         ("Chan", [⟨"port", FType.tlist FType.tint, false, QVal.vnone⟩])]
        (toDict
          [("Root",
            [⟨"wiring", FType.tany, false, QVal.vnone⟩,
             ⟨"qubits", FType.tdict FType.tany, false, QVal.vnone⟩,
             ⟨"f", FType.tint, false, QVal.vnone⟩]),
           ("TransmonA",
            [⟨"x", FType.tint, false, QVal.vnone⟩,
             ⟨"chan", FType.tcomp "Chan", false, QVal.vnone⟩]),
           ("TransmonB", [⟨"y", FType.tstr, false, QVal.vnone⟩]),
           ("Chan", [⟨"port", FType.tlist FType.tint, false, QVal.vnone⟩])]
          (QVal.comp "Root"
            [("wiring", QVal.vdict [("w1", QVal.vstr "#/qubits/q0/x")]),
             ("qubits", QVal.vdict
               [("q0", QVal.comp "TransmonA"
                  [("x", QVal.vint 5),
                   ("chan", QVal.comp "Chan"
                     [("port", QVal.vlist [QVal.vint 1, QVal.vint 2])])]),
                ("q1", QVal.comp "TransmonB"
                  [("y", QVal.vstr "hello")])]),
             ("f", QVal.vint 7)]))
        (FType.tcomp "Root") =
      Except.ok (QVal.comp "Root"
        [("wiring", QVal.vdict [("w1", QVal.vstr "#/qubits/q0/x")]),
         ("qubits", QVal.vdict
           [("q0", QVal.comp "TransmonA"
              [("x", QVal.vint 5),
               ("chan", QVal.comp "Chan"
                 [("port", QVal.vlist [QVal.vint 1, QVal.vint 2])])]),
            ("q1", QVal.comp "TransmonB" [("y", QVal.vstr "hello")])]),
         ("f", QVal.vint 7)]) ∧
    (saveSplit
        (toDict
          [("Root",
            [⟨"wiring", FType.tany, false, QVal.vnone⟩,
             ⟨"qubits", FType.tdict FType.tany, false, QVal.vnone⟩,
             ⟨"f", FType.tint, false, QVal.vnone⟩]),
           ("TransmonA",
            [⟨"x", FType.tint, false, QVal.vnone⟩,
             ⟨"chan", FType.tcomp "Chan", false, QVal.vnone⟩]),
           ("TransmonB", [⟨"y", FType.tstr, false, QVal.vnone⟩]),
           ("Chan", [⟨"port", FType.tlist FType.tint, false, QVal.vnone⟩])]
          (QVal.comp "Root"
            [("wiring", QVal.vdict [("w1", QVal.vstr "#/qubits/q0/x")]),
             ("qubits", QVal.vdict
               [("q0", QVal.comp "TransmonA"
                  [("x", QVal.vint 5),
                   ("chan", QVal.comp "Chan"
                     [("port", QVal.vlist [QVal.vint 1, QVal.vint 2])])]),
                ("q1", QVal.comp "TransmonB"
                  [("y", QVal.vstr "hello")])]),
             ("f", QVal.vint 7)]))
        "state.json" "aux.json" ["wiring"]).map
      (fun docs => instantiate
        [("Root",
          [⟨"wiring", FType.tany, false, QVal.vnone⟩,
           ⟨"qubits", FType.tdict FType.tany, false, QVal.vnone⟩,
           ⟨"f", FType.tint, false, QVal.vnone⟩]),
         ("TransmonA",
          [⟨"x", FType.tint, false, QVal.vnone⟩,
           ⟨"chan", FType.tcomp "Chan", false, QVal.vnone⟩]),
         ("TransmonB", [⟨"y", FType.tstr, false, QVal.vnone⟩]),
         ("Chan", [⟨"port", FType.tlist FType.tint, false, QVal.vnone⟩])]
        (mergeDocs docs) (FType.tcomp "Root")) =
      some (Except.ok (QVal.comp "Root"
        [("wiring", QVal.vdict [("w1", QVal.vstr "#/qubits/q0/x")]),
         ("qubits", QVal.vdict
           [("q0", QVal.comp "TransmonA"
              [("x", QVal.vint 5),
               ("chan", QVal.comp "Chan"
                 [("port", QVal.vlist [QVal.vint 1, QVal.vint 2])])]),
            ("q1", QVal.comp "TransmonB" [("y", QVal.vstr "hello")])]),
         ("f", QVal.vint 7)])) := by
  have hA := c3_flatten_instantiate_roundtrip
    [("OuterComponent",
      [⟨"visible", FType.tint, false, QVal.vint 2⟩,
       ⟨"hidden", FType.tcomp "InnerComponent", true, QVal.vnone⟩]),
     ("InnerComponent",
      [⟨"inner_value", FType.tint, false, QVal.vint 1⟩])]
    "OuterComponent"
    [("visible", QVal.vint 2),
     ("hidden", QVal.comp "InnerComponent" [("inner_value", QVal.vint 1)])]
    "state.json" "aux.json" ["visible"] rfl rfl
  have hB := c3_flatten_instantiate_roundtrip
    [("Root",
      [⟨"wiring", FType.tany, false, QVal.vnone⟩,
       ⟨"qubits", FType.tdict FType.tany, false, QVal.vnone⟩,
       ⟨"f", FType.tint, false, QVal.vnone⟩]),
     ("TransmonA",
      [⟨"x", FType.tint, false, QVal.vnone⟩,
       ⟨"chan", FType.tcomp "Chan", false, QVal.vnone⟩]),
     ("TransmonB", [⟨"y", FType.tstr, false, QVal.vnone⟩]),
     ("Chan", [⟨"port", FType.tlist FType.tint, false, QVal.vnone⟩])]
    "Root"
    [("wiring", QVal.vdict [("w1", QVal.vstr "#/qubits/q0/x")]),
     ("qubits", QVal.vdict
       [("q0", QVal.comp "TransmonA"
          [("x", QVal.vint 5),
           ("chan", QVal.comp "Chan"
             [("port", QVal.vlist [QVal.vint 1, QVal.vint 2])])]),
        ("q1", QVal.comp "TransmonB" [("y", QVal.vstr "hello")])]),
     ("f", QVal.vint 7)]
    "state.json" "aux.json" ["wiring"] rfl rfl
  exact ⟨hA.1, hA.2.1, hB.1, hB.2.2.1⟩

end QuamModel
